import Mathlib

/-!
# Soft-CPU: a shallow embedding of `soft_cpu.c`

The program executes one instruction (`r`, `m`, `l` or `s`) given on the
command line against two 16-bit general registers and a memory-mapped RAM
image of `ram_bytes` bytes seen as 16-bit words.

Modelling conventions.

* A C string (an element of `gargv`) is a `List Char`; each character stands
  for the byte with the same code, and the terminating NUL is implicit:
  `charAt s i` is the byte `s[i]`, which is `0` at `i = strlen s`.
* A `reg_t` is the `Nat` held in its `full` view; `high_low.low` is the low
  byte (`full % 256`), as on a little-endian target.
* `ram_mem` is a function from word index to word value; the mapping is
  `ram_bytes / 2` words long and an access at any other index is outside the
  mapped object.
* `sscanf` is modelled for the three conversions the program uses (`%hi`,
  `%4hX`, `%2hhX`): white space is skipped, the field is cut to the width, then
  an optional sign, an optional base prefix and the longest run of digits are
  read; when no digit can be read nothing is stored.  A `0x` prefix with no hex
  digit behind it is read as the number zero, the way glibc reads it (its
  leading `0` counts as a digit).  A stored value is reduced to the width of
  the receiving object.
* Bytes past the terminator of an argument string are not given by the
  argument.  `load_to_reg` and `store_from_reg` read the byte `[6]` of the
  address operand; when it lies past the terminator, an access to RAM at an
  index built from it has no defined outcome, whereas a handler that ends in
  `errx` (unknown register) does so whatever that byte is: its outcome keeps
  the general registers and RAM, and shows the address registers as if the
  byte were NUL.
* `errx` ends the process; the outcome keeps the machine state reached at that
  point, because the RAM mapping is shared with the backing file.
-/

namespace SoftCpu

/-! ## Registers and memory -/

/-- Main memory size in bytes (`#define ram_bytes 1048576`). -/
def ram_bytes : Nat := 1048576

/-- Number of 16-bit words in the mapping `uint16_t* ram`. -/
def ram_words : Nat := ram_bytes / 2

/-- The `struct general` of the source: the `full` view of each register. -/
structure general where
  A : Nat
  B : Nat
  I1 : Nat
  I2 : Nat
  I3 : Nat

/-- The `struct address` of the source. -/
structure address where
  D1 : Nat
  D2 : Nat

/-- The whole machine: `reg_gen`, `reg_addr` and the mapped RAM. -/
structure Machine where
  gen : general
  addr : address
  ram : Nat → Nat

/-- How a handler ends: it returns, it calls `errx(EX_USAGE, ...)`, or it
performs an access outside an object (outside the RAM mapping, or outside an
argument string), which C leaves undefined. -/
inductive Outcome where
  | ok (s : Machine)
  | usage (s : Machine)
  | undefined

/-- The `high_low.low` view of a register. -/
def low (full : Nat) : Nat := full % 256

/-- Assignment to `high_low.low`: the high byte is kept. -/
def setLow (full b : Nat) : Nat := full / 256 * 256 + b % 256

/-- The assignment `ram_mem[i] = v`. -/
def ramWrite (ram : Nat → Nat) (i v : Nat) : Nat → Nat :=
  fun j => if j = i then v else ram j

/-! ## Argument strings -/

/-- The byte `s[i]` of a C string, `0` for the terminator; `none` past it. -/
def charAt (s : List Char) (i : Nat) : Option Nat :=
  if i < s.length then some ((s.getD i ' ').toNat % 256)
  else if i = s.length then some 0
  else none

/-- The byte `*s`, the first character of a C string. -/
def firstByte (s : List Char) : Nat :=
  match s with
  | [] => 0
  | c :: _ => c.toNat % 256

/-- A `char` converted to `uint16_t` (plain `char` is signed here). -/
def charToU16 (b : Nat) : Nat := if b < 128 then b else 65280 + b

/-! ## The `sscanf` conversions -/

/-- The C-locale `isspace`. -/
def isspace (c : Char) : Bool := c.toNat = 32 || (9 ≤ c.toNat && c.toNat ≤ 13)

/-- Leading white space is skipped before a numeric conversion. -/
def skipSpace : List Char → List Char
  | [] => []
  | c :: cs => if isspace c then skipSpace cs else c :: cs

/-- The value of a character as a digit, `16` or more when it is none. -/
def rawDigit (c : Char) : Nat :=
  let n := c.toNat
  if 48 ≤ n ∧ n ≤ 57 then n - 48
  else if 97 ≤ n ∧ n ≤ 102 then n - 87
  else if 65 ≤ n ∧ n ≤ 70 then n - 55
  else 16

/-- The value of a character as a digit of the given base. -/
def digitValue (base : Nat) (c : Char) : Option Nat :=
  if rawDigit c < base then some (rawDigit c) else none

/-- Reads the longest run of digits, continuing from the accumulator. -/
def scanDigits (base : Nat) : List Char → Nat → Nat
  | [], acc => acc
  | c :: cs, acc =>
    match digitValue base c with
    | some d => scanDigits base cs (acc * base + d)
    | none => acc

/-- Reads a non-empty run of digits. -/
def scanNumber (base : Nat) : List Char → Option Nat
  | [] => none
  | c :: cs =>
    match digitValue base c with
    | some d => some (scanDigits base cs d)
    | none => none

/-- After the sign: a `0x`/`0X` prefix selects base 16 (when the conversion
allows it); otherwise a leading `0` selects base 8 for `%i`.  In both cases the
leading `0` already is a digit, so a prefix with no hex digit behind it reads
as zero (glibc). -/
def scanUnsigned (base : Nat) (field : List Char) : Option Nat :=
  match field with
  | [] => none
  | c :: r =>
    if c.toNat = 48 then
      match r with
      | [] => some 0
      | x :: r2 =>
        if (x.toNat = 120 ∨ x.toNat = 88) ∧ (base = 0 ∨ base = 16) then
          some (scanDigits 16 r2 0)
        else
          some (scanDigits (if base = 0 then 8 else base) r 0)
    else scanNumber (if base = 0 then 10 else base) field

/-- An integer field: optional sign, then the magnitude.  The result is the
pair (negative, magnitude). -/
def scanInt (base : Nat) (field : List Char) : Option (Bool × Nat) :=
  match field with
  | [] => none
  | c :: r =>
    if c.toNat = 45 then (scanUnsigned base r).map (fun m => (true, m))
    else if c.toNat = 43 then (scanUnsigned base r).map (fun m => (false, m))
    else (scanUnsigned base field).map (fun m => (false, m))

/-- A signed magnitude reduced to an object of the given number of bits. -/
def wrap (bits : Nat) (neg : Bool) (mag : Nat) : Nat :=
  if neg then (2 ^ bits - mag % 2 ^ bits) % 2 ^ bits else mag % 2 ^ bits

/-- The value `strtol` hands back for `%i`: out of the range of `long`
(64 bits) it saturates. -/
def strtolBits (neg : Bool) (mag : Nat) : Bool × Nat :=
  if neg then (if 2 ^ 63 < mag then (true, 2 ^ 63) else (true, mag))
  else (if 2 ^ 63 ≤ mag then (false, 2 ^ 63 - 1) else (false, mag))

/-- The conversion `%hi` (the format of `raw_set` is `"%hi" SCNu16`, that is
`%hi` followed by the ordinary characters of `SCNu16`, which are matched after
the store): the 16 bits stored, if any. -/
def sscanf_hi (s : List Char) : Option Nat :=
  (scanInt 0 (skipSpace s)).map
    (fun p => wrap 16 (strtolBits p.1 p.2).1 (strtolBits p.1 p.2).2)

/-- The conversion `%4hX`: the 16 bits stored, if any. -/
def sscanf_4hX (s : List Char) : Option Nat :=
  (scanInt 16 ((skipSpace s).take 4)).map (fun p => wrap 16 p.1 p.2)

/-- The conversion `%2hhX`: the 8 bits stored, if any. -/
def sscanf_2hhX (s : List Char) : Option Nat :=
  (scanInt 16 ((skipSpace s).take 2)).map (fun p => wrap 8 p.1 p.2)

/-! ## The four handlers -/

/-- Source `reg_move`: `gargv[2]` is `dest`, `gargv[3]` is `src`. -/
def reg_move (dest src : List Char) (s : Machine) : Outcome :=
  let i2 := setLow s.gen.I2 (firstByte dest)
  let i3 := setLow s.gen.I3 (firstByte src)
  let g : general := { s.gen with I2 := i2, I3 := i3 }
  if low i2 = 65 ∧ low i3 = 66 then
    Outcome.ok { s with gen := { g with A := g.B } }
  else if low i2 = 66 ∧ low i3 = 65 then
    Outcome.ok { s with gen := { g with B := g.A } }
  else
    Outcome.usage { s with gen := g }

/-- Source `raw_set`: `gargv[2]` is `dest`, `gargv[3]` is `src`. -/
def raw_set (dest src : List Char) (s : Machine) : Outcome :=
  let i2 := charToU16 (firstByte dest)
  let i3 := (sscanf_hi src).getD s.gen.I3
  let g : general := { s.gen with I2 := i2, I3 := i3 }
  if low i2 = 65 then
    Outcome.ok { s with gen := { g with A := i3 } }
  else if low i2 = 66 then
    Outcome.ok { s with gen := { g with B := i3 } }
  else
    Outcome.usage { s with gen := g }

/-- The count `strlen(lit) - 6`, set to `0` when negative. -/
def shiftOf (lit : List Char) : Nat := lit.length - 6

/-- The address registers after the two `sscanf` calls of `load_to_reg` and
`store_from_reg` on the address literal `lit`; `b6` is the byte `lit[6]`. -/
def scanAddress (lit : List Char) (b6 : Nat) (a : address) : address :=
  let d1 := (sscanf_4hX (lit.drop 2)).getD a.D1
  let d2 :=
    if b6 ≠ 0 then
      match sscanf_2hhX (lit.drop 6) with
      | some v => setLow a.D2 v
      | none => a.D2
    else a.D2
  { D1 := d1, D2 := d2 }

/-- The index expression `(D1.full << (shift * 4)) | D2.high_low.low`. -/
def indexExpr (a : address) (shift : Nat) : Nat :=
  (a.D1 <<< (shift * 4)) ||| low a.D2

/-- The word of the mapping that `ram_mem[indexExpr ...]` designates: none when
the shift count reaches the width of `int` or the index is outside the
`ram_words` words of the mapping. -/
def ramSlot (a : address) (shift : Nat) : Option Nat :=
  if shift * 4 < 32 ∧ indexExpr a shift < ram_words then some (indexExpr a shift)
  else none

/-- Source `load_to_reg`: `gargv[2]` is `dest`, `gargv[3]` is `src`.  The
register test is the one of the source; where `src[6]` lies past the
terminator it is made first, because only the RAM access depends on that
byte. -/
def load_to_reg (dest src : List Char) (s : Machine) : Outcome :=
  let i2 := setLow s.gen.I2 (firstByte dest)
  let g : general := { s.gen with I2 := i2 }
  let shift := shiftOf src
  match charAt src 6 with
  | none =>
    if low i2 = 65 ∨ low i2 = 66 then Outcome.undefined
    else Outcome.usage { gen := g, addr := scanAddress src 0 s.addr, ram := s.ram }
  | some b6 =>
    let a1 := scanAddress src b6 s.addr
    if low i2 = 65 then
      match ramSlot a1 shift with
      | some i => Outcome.ok { gen := { g with A := s.ram i }, addr := a1, ram := s.ram }
      | none => Outcome.undefined
    else if low i2 = 66 then
      match ramSlot a1 shift with
      | some i => Outcome.ok { gen := { g with B := s.ram i }, addr := a1, ram := s.ram }
      | none => Outcome.undefined
    else
      Outcome.usage { gen := g, addr := a1, ram := s.ram }

/-- Source `store_from_reg`: `gargv[2]` is `dest`, `gargv[3]` is `src`.  The
register test is the one of the source; where `dest[6]` lies past the
terminator it is made first, because only the RAM access depends on that
byte. -/
def store_from_reg (dest src : List Char) (s : Machine) : Outcome :=
  let i3 := setLow s.gen.I3 (firstByte src)
  let g : general := { s.gen with I3 := i3 }
  let shift := shiftOf dest
  match charAt dest 6 with
  | none =>
    if low i3 = 65 ∨ low i3 = 66 then Outcome.undefined
    else Outcome.usage { gen := g, addr := scanAddress dest 0 s.addr, ram := s.ram }
  | some b6 =>
    let a1 := scanAddress dest b6 s.addr
    if low i3 = 65 then
      match ramSlot a1 shift with
      | some i => Outcome.ok { gen := g, addr := a1, ram := ramWrite s.ram i g.A }
      | none => Outcome.undefined
    else if low i3 = 66 then
      match ramSlot a1 shift with
      | some i => Outcome.ok { gen := g, addr := a1, ram := ramWrite s.ram i g.B }
      | none => Outcome.undefined
    else
      Outcome.usage { gen := g, addr := a1, ram := s.ram }

/-- The word index that `load_to_reg` and `store_from_reg` compute for the
address literal `lit` from the address registers `a`. -/
def wordIndex (lit : List Char) (a : address) : Nat :=
  indexExpr (scanAddress lit ((charAt lit 6).getD 0) a) (shiftOf lit)

/-! ## One invocation -/

/-- The zero-initialised globals `reg_gen` and `reg_addr` over a RAM image. -/
def boot (ram : Nat → Nat) : Machine :=
  { gen := { A := 0, B := 0, I1 := 0, I2 := 0, I3 := 0 },
    addr := { D1 := 0, D2 := 0 },
    ram := ram }

/-- Source `main`, with the backing file opened and mapped successfully:
`ram0` is the image of the file once `ftruncate` has given it `ram_bytes`
bytes.  `argv` includes the program name. -/
def main (argv : List (List Char)) (ram0 : Nat → Nat) : Outcome :=
  match argv with
  | [_, cmd, dest, src] =>
    let s0 := boot (ramWrite ram0 0x1234 64123)
    let s1 : Machine := { s0 with gen := { s0.gen with I1 := charToU16 (firstByte cmd) } }
    if s1.gen.I1 = 114 then raw_set dest src s1
    else if s1.gen.I1 = 109 then reg_move dest src s1
    else if s1.gen.I1 = 108 then load_to_reg dest src s1
    else if s1.gen.I1 = 115 then store_from_reg dest src s1
    else Outcome.usage s1
  | _ => Outcome.usage (boot ram0)

/-! ## Input classes named by the specification -/

/-- A hexadecimal digit, in either letter case. -/
def isxdigit (c : Char) : Bool :=
  (48 ≤ c.toNat && c.toNat ≤ 57) || (97 ≤ c.toNat && c.toNat ≤ 102) ||
    (65 ≤ c.toNat && c.toNat ≤ 70)

/-- A well-formed address literal: `0x` followed by 4 to 6 hex digits. -/
def isAddressLiteral (lit : List Char) : Bool :=
  match lit with
  | a :: b :: ds =>
    a.toNat = 48 && b.toNat = 120 && 4 ≤ ds.length && ds.length ≤ 6 && ds.all isxdigit
  | _ => false

/-- The numeric value of a run of hex digits, most significant first. -/
def hexValue (ds : List Char) : Nat :=
  ds.foldl (fun acc c => acc * 16 + rawDigit c) 0

/-- The value of a run of decimal digits read after the accumulator `a`. -/
def decimalFold (a : Nat) (ds : List Char) : Nat :=
  ds.foldl (fun acc c => acc * 10 + (c.toNat - 48)) a

/-- A token that the handlers take for register A or register B. -/
def isKnownRegister (tok : List Char) : Bool := firstByte tok = 65 || firstByte tok = 66

/-- The invocations that the specification wants refused as a usage error:
an opcode other than `r`, `m`, `l`, `s`, or one of these with a register
operand that is neither A nor B. -/
def isRejected (cmd dest src : List Char) : Bool :=
  if firstByte cmd = 114 then !isKnownRegister dest
  else if firstByte cmd = 109 then !isKnownRegister dest || !isKnownRegister src
  else if firstByte cmd = 108 then !isKnownRegister dest
  else if firstByte cmd = 115 then !isKnownRegister src
  else true

/-- The machine state in which `main` reaches its `switch`: zeroed registers
with the opcode character in `I1`, and the RAM image with `ram[0x1234]` set. -/
def atDispatch (cmd : List Char) (ram0 : Nat → Nat) : Machine :=
  { gen := { A := 0, B := 0, I1 := charToU16 (firstByte cmd), I2 := 0, I3 := 0 },
    addr := { D1 := 0, D2 := 0 },
    ram := ramWrite ram0 0x1234 64123 }

/-! ## Basic facts -/

theorem low_setLow (full b : Nat) : low (setLow full b) = b % 256 := by
  unfold low setLow
  omega

theorem ramWrite_same (ram : Nat → Nat) (i v : Nat) : ramWrite ram i v i = v := by
  simp [ramWrite]

theorem ramWrite_other (ram : Nat → Nat) (i v j : Nat) (h : j ≠ i) :
    ramWrite ram i v j = ram j := by
  simp [ramWrite, h]

/-! ## Reading decimal literals with `%hi` -/

theorem digitChar_code (m : Nat) (hm : m < 10) : (Nat.digitChar m).toNat = 48 + m := by
  interval_cases m <;> rfl

theorem rawDigit_decimal (c : Char) (h : 48 ≤ c.toNat ∧ c.toNat ≤ 57) :
    rawDigit c = c.toNat - 48 := by
  simp [rawDigit, h]

theorem scanDigits_decimal (ds : List Char) :
    ∀ a, (∀ c ∈ ds, 48 ≤ c.toNat ∧ c.toNat ≤ 57) → scanDigits 10 ds a = decimalFold a ds := by
  induction ds with
  | nil => intro a _; rfl
  | cons c cs ih =>
    intro a h
    have hc := h c (List.mem_cons_self c cs)
    have hd : digitValue 10 c = some (c.toNat - 48) := by
      have h10 : c.toNat - 48 < 10 := by omega
      simp [digitValue, rawDigit_decimal c hc, h10]
    simp only [scanDigits, hd]
    rw [ih _ (fun x hx => h x (List.mem_cons_of_mem c hx))]
    rfl

/-- The digits that `Nat.toDigitsCore` puts before its accumulator: decimal
digit characters, with a leading `0` only for the number zero, whose value
read from the left is `n`. -/
theorem toDigitsCore_reads (fuel : Nat) :
    ∀ n acc, n < fuel →
      ∃ ds, Nat.toDigitsCore 10 fuel n acc = ds ++ acc ∧
        (∀ c ∈ ds, 48 ≤ c.toNat ∧ c.toNat ≤ 57) ∧
        (∃ c r, ds = c :: r ∧ (c.toNat = 48 → r = [] ∧ n = 0)) ∧
        (∀ a, decimalFold a ds = a * 10 ^ ds.length + n) := by
  induction fuel with
  | zero => intro n acc h; omega
  | succ fuel ih =>
    intro n acc hn
    have hmod : n % 10 < 10 := Nat.mod_lt _ (by decide)
    have hcode := digitChar_code (n % 10) hmod
    unfold Nat.toDigitsCore
    by_cases hq : n / 10 = 0
    · have hsmall : n < 10 := by omega
      refine ⟨[Nat.digitChar (n % 10)], by simp [hq], ?_, ?_, ?_⟩
      · intro c hc
        rw [List.mem_singleton] at hc
        subst hc
        omega
      · exact ⟨_, _, rfl, fun h0 => ⟨rfl, by omega⟩⟩
      · intro a
        simp only [decimalFold, List.foldl_cons, List.foldl_nil, List.length_singleton, hcode]
        omega
    · obtain ⟨ds, hds, hdig, ⟨c, r, hcr, hlead⟩, hval⟩ :=
        ih (n / 10) (Nat.digitChar (n % 10) :: acc) (by omega)
      refine ⟨ds ++ [Nat.digitChar (n % 10)], by simp [hq, hds], ?_, ?_, ?_⟩
      · intro x hx
        rcases List.mem_append.mp hx with hx | hx
        · exact hdig x hx
        · rw [List.mem_singleton] at hx
          subst hx
          omega
      · refine ⟨c, r ++ [Nat.digitChar (n % 10)], by simp [hcr], fun h0 => ?_⟩
        have := (hlead h0).2
        omega
      · intro a
        have hv := hval a
        simp only [decimalFold, List.foldl_append, List.foldl_cons, List.foldl_nil,
          List.length_append, List.length_singleton, hcode] at hv ⊢
        rw [hv, pow_succ]
        have := Nat.div_add_mod n 10
        ring_nf
        omega

/-- The conversion `%hi` reads the decimal rendering of a 16-bit value as that value. -/
theorem sscanf_hi_decimal (v : Nat) (hv : v ≤ 65535) :
    sscanf_hi (Nat.toDigits 10 v) = some v := by
  obtain ⟨ds, hds, hdig, ⟨c, r, hcr, hlead⟩, hval⟩ :=
    toDigitsCore_reads (v + 1) v [] (Nat.lt_succ_self v)
  have hlit : Nat.toDigits 10 v = c :: r := by
    simp [Nat.toDigits, hds, hcr]
  have hc : 48 ≤ c.toNat ∧ c.toNat ≤ 57 := hdig c (by simp [hcr])
  have hfold : decimalFold 0 (c :: r) = v := by
    have := hval 0
    rw [hcr] at this
    simpa using this
  have hsp : isspace c = false := by
    simp [isspace]
    omega
  have hskip : skipSpace (c :: r) = c :: r := by
    simp [skipSpace, hsp]
  have hint : scanInt 0 (c :: r) = some (false, v) := by
    have h45 : c.toNat ≠ 45 := by omega
    have h43 : c.toNat ≠ 43 := by omega
    simp only [scanInt, h45, h43, if_false]
    by_cases h0 : c.toNat = 48
    · obtain ⟨hr, hv0⟩ := hlead h0
      subst hr
      simp [scanUnsigned, h0, hv0]
    · have hd : digitValue 10 c = some (c.toNat - 48) := by
        have h10 : c.toNat - 48 < 10 := by omega
        simp [digitValue, rawDigit_decimal c hc, h10]
      have hr : scanDigits 10 r (c.toNat - 48) = v := by
        rw [scanDigits_decimal r _ (fun x hx => hdig x (by simp [hcr, hx]))]
        rw [← hfold]
        simp [decimalFold]
      simp [scanUnsigned, h0, scanNumber, hd, hr]
  rw [hlit]
  simp only [sscanf_hi, hskip, hint, Option.map_some']
  have h63 : ¬ (2 ^ 63 ≤ v) := by
    have : (65535 : Nat) < 2 ^ 63 := by norm_num
    omega
  have hs : strtolBits false v = (false, v) := by
    simp only [strtolBits, Bool.false_eq_true, if_false, if_neg h63]
  simp only [hs, wrap, Bool.false_eq_true, if_false]
  congr 1
  exact Nat.mod_eq_of_lt (by norm_num; omega)

/-- A `0x` prefix with no hex digit behind it is read as zero by `%hi`, with
or without a sign; a token with no digit at all is not read. -/
theorem sscanf_hi_bare_prefix :
    sscanf_hi "0x".toList = some 0 ∧ sscanf_hi "0X".toList = some 0 ∧
    sscanf_hi "-0x".toList = some 0 ∧ sscanf_hi "+0x".toList = some 0 ∧
    sscanf_hi "0xg".toList = some 0 ∧ sscanf_hi "xyz".toList = none ∧
    sscanf_hi "".toList = none ∧ sscanf_hi "-".toList = none := by
  decide

/-! ## The handlers on an in-range address -/

theorem charAt_six (lit : List Char) (h6 : 6 ≤ lit.length) :
    charAt lit 6 = some ((charAt lit 6).getD 0) := by
  unfold charAt
  by_cases h : 6 < lit.length
  · simp [h]
  · have : 6 = lit.length := by omega
    simp [← this]

theorem charAt_short (lit : List Char) (h : lit.length < 6) : charAt lit 6 = none := by
  unfold charAt
  rw [if_neg (by omega), if_neg (by omega)]

theorem ramSlot_wordIndex (lit : List Char) (a : address) (h13 : lit.length ≤ 13)
    (hin : wordIndex lit a < ram_words) :
    ramSlot (scanAddress lit ((charAt lit 6).getD 0) a) (shiftOf lit) = some (wordIndex lit a) := by
  have hsh : shiftOf lit * 4 < 32 := by
    unfold shiftOf
    omega
  unfold ramSlot
  rw [if_pos ⟨hsh, hin⟩]
  rfl

theorem isAddressLiteral_length (lit : List Char) (h : isAddressLiteral lit = true) :
    6 ≤ lit.length ∧ lit.length ≤ 8 := by
  match lit, h with
  | a :: b :: ds, h =>
    simp only [isAddressLiteral, Bool.and_eq_true, decide_eq_true_eq] at h
    simp only [List.length_cons]
    omega

theorem load_to_reg_A (dest lit : List Char) (s : Machine) (hd : firstByte dest = 65)
    (h6 : 6 ≤ lit.length) (h13 : lit.length ≤ 13) (hin : wordIndex lit s.addr < ram_words) :
    load_to_reg dest lit s =
      Outcome.ok
        { gen := { s.gen with I2 := setLow s.gen.I2 65, A := s.ram (wordIndex lit s.addr) },
          addr := scanAddress lit ((charAt lit 6).getD 0) s.addr,
          ram := s.ram } := by
  unfold load_to_reg
  rw [charAt_six lit h6]
  simp only [hd, low_setLow, ramSlot_wordIndex lit s.addr h13 hin]
  rfl

theorem load_to_reg_B (dest lit : List Char) (s : Machine) (hd : firstByte dest = 66)
    (h6 : 6 ≤ lit.length) (h13 : lit.length ≤ 13) (hin : wordIndex lit s.addr < ram_words) :
    load_to_reg dest lit s =
      Outcome.ok
        { gen := { s.gen with I2 := setLow s.gen.I2 66, B := s.ram (wordIndex lit s.addr) },
          addr := scanAddress lit ((charAt lit 6).getD 0) s.addr,
          ram := s.ram } := by
  unfold load_to_reg
  rw [charAt_six lit h6]
  simp only [hd, low_setLow, ramSlot_wordIndex lit s.addr h13 hin]
  rfl

theorem store_from_reg_A (lit src : List Char) (s : Machine) (hr : firstByte src = 65)
    (h6 : 6 ≤ lit.length) (h13 : lit.length ≤ 13) (hin : wordIndex lit s.addr < ram_words) :
    store_from_reg lit src s =
      Outcome.ok
        { gen := { s.gen with I3 := setLow s.gen.I3 65 },
          addr := scanAddress lit ((charAt lit 6).getD 0) s.addr,
          ram := ramWrite s.ram (wordIndex lit s.addr) s.gen.A } := by
  unfold store_from_reg
  rw [charAt_six lit h6]
  simp only [hr, low_setLow, ramSlot_wordIndex lit s.addr h13 hin]
  rfl

theorem store_from_reg_B (lit src : List Char) (s : Machine) (hr : firstByte src = 66)
    (h6 : 6 ≤ lit.length) (h13 : lit.length ≤ 13) (hin : wordIndex lit s.addr < ram_words) :
    store_from_reg lit src s =
      Outcome.ok
        { gen := { s.gen with I3 := setLow s.gen.I3 66 },
          addr := scanAddress lit ((charAt lit 6).getD 0) s.addr,
          ram := ramWrite s.ram (wordIndex lit s.addr) s.gen.B } := by
  unfold store_from_reg
  rw [charAt_six lit h6]
  simp only [hr, low_setLow, ramSlot_wordIndex lit s.addr h13 hin]
  rfl

/-- Resolving the same literal again from the address registers it left gives
the same word index. -/
theorem wordIndex_again (lit : List Char) (a : address) :
    wordIndex lit (scanAddress lit ((charAt lit 6).getD 0) a) = wordIndex lit a := by
  unfold wordIndex scanAddress indexExpr
  cases h4 : sscanf_4hX (lit.drop 2) <;> cases h2 : sscanf_2hhX (lit.drop 6) <;>
    by_cases hb : (charAt lit 6).getD 0 = 0 <;>
    simp only [hb, low_setLow, ne_eq, not_true_eq_false, not_false_eq_true, if_true, if_false,
      Option.getD_some, Option.getD_none]

/-! ## Reading hex fields with `%4hX` and `%2hhX` -/

theorem isxdigit_facts (c : Char) (h : isxdigit c = true) :
    rawDigit c < 16 ∧ isspace c = false ∧ c.toNat ≠ 45 ∧ c.toNat ≠ 43 ∧
      c.toNat ≠ 120 ∧ c.toNat ≠ 88 ∧ (c.toNat = 48 → rawDigit c = 0) := by
  simp only [isxdigit, Bool.or_eq_true, Bool.and_eq_true, decide_eq_true_eq] at h
  refine ⟨?_, ?_, ?_, ?_, ?_, ?_, ?_⟩
  · unfold rawDigit
    simp only
    split_ifs <;> omega
  · simp only [isspace, Bool.or_eq_false_iff, Bool.and_eq_false_iff, decide_eq_false_iff_not]
    omega
  · omega
  · omega
  · omega
  · omega
  · intro h0
    simp [rawDigit, h0]

theorem digitValue_hex (c : Char) (h : isxdigit c = true) :
    digitValue 16 c = some (rawDigit c) := by
  simp [digitValue, (isxdigit_facts c h).1]

/-- A field of hex digits is read digit by digit. -/
theorem scanInt_hex_field (c : Char) (cs : List Char) (hc : isxdigit c = true)
    (hcs : ∀ x ∈ cs, isxdigit x = true) :
    scanInt 16 (c :: cs) = some (false, hexValue (c :: cs)) := by
  obtain ⟨_, _, h45, h43, _, _, hzero⟩ := isxdigit_facts c hc
  have hrun : ∀ (l : List Char) (acc : Nat), (∀ x ∈ l, isxdigit x = true) →
      scanDigits 16 l acc = l.foldl (fun a x => a * 16 + rawDigit x) acc := by
    intro l
    induction l with
    | nil => intro acc _; rfl
    | cons y ys ih =>
      intro acc hy
      simp only [scanDigits, digitValue_hex y (hy y (List.mem_cons_self y ys)), List.foldl_cons]
      exact ih _ (fun x hx => hy x (List.mem_cons_of_mem y hx))
  have e8 : (if (16 : Nat) = 0 then 8 else 16) = 16 := rfl
  have e10 : (if (16 : Nat) = 0 then 10 else 16) = 16 := rfl
  simp only [scanInt, h45, h43, if_false]
  by_cases h0 : c.toNat = 48
  · cases cs with
    | nil => simp [scanUnsigned, h0, hexValue, hzero h0]
    | cons y ys =>
      obtain ⟨_, _, _, _, h120, h88, _⟩ := isxdigit_facts y (hcs y (List.mem_cons_self y ys))
      simp only [scanUnsigned, h0, if_true, h120, h88, or_self, false_and, if_false, e8]
      rw [hrun _ _ hcs]
      simp [hexValue, hzero h0]
  · simp only [scanUnsigned, h0, if_false, scanNumber, e10, digitValue_hex c hc]
    rw [hrun _ _ hcs]
    simp [hexValue]

theorem hexValue_lt (ds : List Char) (h : ∀ x ∈ ds, isxdigit x = true) :
    hexValue ds < 16 ^ ds.length := by
  have key : ∀ (l : List Char) (acc n : Nat), (∀ x ∈ l, isxdigit x = true) → acc < 16 ^ n →
      l.foldl (fun a x => a * 16 + rawDigit x) acc < 16 ^ (n + l.length) := by
    intro l
    induction l with
    | nil => intro acc n _ hacc; simpa using hacc
    | cons y ys ih =>
      intro acc n hy hacc
      have hd := (isxdigit_facts y (hy y (List.mem_cons_self y ys))).1
      have hstep : acc * 16 + rawDigit y < 16 ^ (n + 1) := by
        rw [pow_succ]
        omega
      have := ih (acc * 16 + rawDigit y) (n + 1) (fun x hx => hy x (List.mem_cons_of_mem y hx)) hstep
      simpa [List.length_cons, Nat.add_assoc, Nat.add_comm 1] using this
  have := key ds 0 0 h (by norm_num)
  simpa [hexValue] using this

/-- The conversion `%4hX` on four hex digits, whatever follows them. -/
theorem sscanf_4hX_digits (c1 c2 c3 c4 : Char) (rest : List Char)
    (h : ∀ x ∈ [c1, c2, c3, c4], isxdigit x = true) :
    sscanf_4hX (c1 :: c2 :: c3 :: c4 :: rest) = some (hexValue [c1, c2, c3, c4]) := by
  have h1 := h c1 (by simp)
  have hsp := (isxdigit_facts c1 h1).2.1
  have hlt : hexValue [c1, c2, c3, c4] < 65536 := by
    have := hexValue_lt [c1, c2, c3, c4] h
    simp only [List.length_cons, List.length_nil] at this
    norm_num at this
    exact this
  simp only [sscanf_4hX, skipSpace, hsp, Bool.false_eq_true, if_false, List.take_succ_cons,
    List.take_zero]
  rw [scanInt_hex_field c1 [c2, c3, c4] h1 (fun x hx => h x (List.mem_cons_of_mem c1 hx))]
  simp only [Option.map_some', wrap, Bool.false_eq_true, if_false]
  congr 1
  apply Nat.mod_eq_of_lt
  norm_num
  exact hlt

/-- The conversion `%2hhX` on one or two hex digits that end the string. -/
theorem sscanf_2hhX_digits (c : Char) (cs : List Char) (hlen : cs.length ≤ 1)
    (h : ∀ x ∈ c :: cs, isxdigit x = true) :
    sscanf_2hhX (c :: cs) = some (hexValue (c :: cs)) := by
  have h1 := h c (by simp)
  have hsp := (isxdigit_facts c h1).2.1
  have hlt := hexValue_lt (c :: cs) h
  have htake : List.take 2 (c :: cs) = c :: cs := List.take_of_length_le (by simp; omega)
  simp only [sscanf_2hhX, skipSpace, hsp, Bool.false_eq_true, if_false, htake]
  rw [scanInt_hex_field c cs h1 (fun x hx => h x (List.mem_cons_of_mem c hx))]
  simp only [Option.map_some', wrap, Bool.false_eq_true, if_false]
  congr 1
  apply Nat.mod_eq_of_lt
  have : 16 ^ (c :: cs).length ≤ 2 ^ 8 := by
    have hl : (c :: cs).length ≤ 2 := by simp; omega
    calc 16 ^ (c :: cs).length ≤ 16 ^ 2 := Nat.pow_le_pow_right (by norm_num) hl
      _ = 2 ^ 8 := by norm_num
  omega

/-! ## The word index of a well-formed literal -/

theorem shift_or_eq (hi lo k : Nat) (h : lo < 2 ^ k) : hi <<< k ||| lo = hi * 2 ^ k + lo := by
  rw [Nat.shiftLeft_eq, Nat.mul_comm hi, Nat.mul_add_lt_is_or h]

theorem isxdigit_byte_ne_zero (c : Char) (h : isxdigit c = true) : c.toNat % 256 ≠ 0 := by
  simp only [isxdigit, Bool.or_eq_true, Bool.and_eq_true, decide_eq_true_eq] at h
  omega

/-- Four hex digits: only `D1` is stored, `D2` keeps its prior value. -/
theorem scanAddress_four (c1 c2 c3 c4 : Char) (a : address)
    (h : ∀ x ∈ [c1, c2, c3, c4], isxdigit x = true) :
    scanAddress ['0', 'x', c1, c2, c3, c4] ((charAt ['0', 'x', c1, c2, c3, c4] 6).getD 0) a =
      { D1 := hexValue [c1, c2, c3, c4], D2 := a.D2 } := by
  have h4 := sscanf_4hX_digits c1 c2 c3 c4 [] h
  simp [scanAddress, charAt, h4]

/-- Five or six hex digits: `D1` takes the first four, the low byte of `D2`
the rest. -/
theorem scanAddress_long (c1 c2 c3 c4 c5 : Char) (cs : List Char) (a : address)
    (hlen : cs.length ≤ 1) (h : ∀ x ∈ [c1, c2, c3, c4], isxdigit x = true)
    (h5 : ∀ x ∈ c5 :: cs, isxdigit x = true) :
    scanAddress ('0' :: 'x' :: c1 :: c2 :: c3 :: c4 :: c5 :: cs)
        ((charAt ('0' :: 'x' :: c1 :: c2 :: c3 :: c4 :: c5 :: cs) 6).getD 0) a =
      { D1 := hexValue [c1, c2, c3, c4], D2 := setLow a.D2 (hexValue (c5 :: cs)) } := by
  have h4 := sscanf_4hX_digits c1 c2 c3 c4 (c5 :: cs) h
  have h2 := sscanf_2hhX_digits c5 cs hlen h5
  have hb := isxdigit_byte_ne_zero c5 (h5 c5 (List.mem_cons_self c5 cs))
  have hc : charAt ('0' :: 'x' :: c1 :: c2 :: c3 :: c4 :: c5 :: cs) 6 = some (c5.toNat % 256) := by
    simp [charAt]
  simp [scanAddress, hc, hb, h4, h2]

theorem wordIndex_four (c1 c2 c3 c4 : Char) (a : address)
    (h : ∀ x ∈ [c1, c2, c3, c4], isxdigit x = true) (hD2 : low a.D2 = 0) :
    wordIndex ['0', 'x', c1, c2, c3, c4] a = hexValue [c1, c2, c3, c4] := by
  unfold wordIndex
  rw [scanAddress_four c1 c2 c3 c4 a h]
  simp [indexExpr, shiftOf, hD2]

theorem wordIndex_six (c1 c2 c3 c4 c5 c6 : Char) (a : address)
    (h : ∀ x ∈ [c1, c2, c3, c4, c5, c6], isxdigit x = true) :
    wordIndex ['0', 'x', c1, c2, c3, c4, c5, c6] a = hexValue [c1, c2, c3, c4, c5, c6] := by
  have hhi : ∀ x ∈ [c1, c2, c3, c4], isxdigit x = true := fun x hx => h x (by
    simp only [List.mem_cons, List.mem_singleton, List.not_mem_nil, or_false] at hx ⊢
    tauto)
  have hlo : ∀ x ∈ [c5, c6], isxdigit x = true := fun x hx => h x (by
    simp only [List.mem_cons, List.mem_singleton, List.not_mem_nil, or_false] at hx ⊢
    tauto)
  have hlt : hexValue [c5, c6] < 2 ^ 8 := by
    have := hexValue_lt [c5, c6] hlo
    simp only [List.length_cons, List.length_nil] at this
    norm_num at this ⊢
    exact this
  unfold wordIndex
  rw [scanAddress_long c1 c2 c3 c4 c5 [c6] a (by simp) hhi hlo]
  have hsh : shiftOf ['0', 'x', c1, c2, c3, c4, c5, c6] * 4 = 8 := rfl
  have hmod : hexValue [c5, c6] % 256 = hexValue [c5, c6] := Nat.mod_eq_of_lt hlt
  simp only [indexExpr, hsh, low_setLow, hmod]
  rw [shift_or_eq _ _ 8 hlt]
  simp only [hexValue, List.foldl_cons, List.foldl_nil]
  ring

/-! ## The handlers outside the mapping, and on an unknown register -/

theorem firstByte_lt (tok : List Char) : firstByte tok < 256 := by
  cases tok with
  | nil => simp [firstByte]
  | cons c cs => exact Nat.mod_lt _ (by decide)

theorem ramSlot_out (lit : List Char) (a : address) (hout : ram_words ≤ wordIndex lit a) :
    ramSlot (scanAddress lit ((charAt lit 6).getD 0) a) (shiftOf lit) = none := by
  unfold ramSlot
  rw [if_neg]
  intro h
  have : wordIndex lit a < ram_words := h.2
  omega

theorem load_to_reg_out (dest lit : List Char) (s : Machine)
    (hd : firstByte dest = 65 ∨ firstByte dest = 66)
    (h6 : 6 ≤ lit.length) (hout : ram_words ≤ wordIndex lit s.addr) :
    load_to_reg dest lit s = Outcome.undefined := by
  unfold load_to_reg
  rw [charAt_six lit h6]
  rcases hd with hd | hd <;> simp [hd, low_setLow, ramSlot_out lit s.addr hout]

theorem store_from_reg_out (lit src : List Char) (s : Machine)
    (hr : firstByte src = 65 ∨ firstByte src = 66)
    (h6 : 6 ≤ lit.length) (hout : ram_words ≤ wordIndex lit s.addr) :
    store_from_reg lit src s = Outcome.undefined := by
  unfold store_from_reg
  rw [charAt_six lit h6]
  rcases hr with hr | hr <;> simp [hr, low_setLow, ramSlot_out lit s.addr hout]

theorem load_to_reg_unknown (dest lit : List Char) (s : Machine)
    (hd : isKnownRegister dest = false) :
    load_to_reg dest lit s =
      Outcome.usage
        { gen := { s.gen with I2 := setLow s.gen.I2 (firstByte dest) },
          addr := scanAddress lit ((charAt lit 6).getD 0) s.addr,
          ram := s.ram } := by
  simp only [isKnownRegister, Bool.or_eq_false_iff, decide_eq_false_iff_not] at hd
  have hm : firstByte dest % 256 = firstByte dest := Nat.mod_eq_of_lt (firstByte_lt dest)
  unfold load_to_reg
  by_cases h6 : 6 ≤ lit.length
  · rw [charAt_six lit h6]
    simp only [low_setLow, hm, hd.1, hd.2, if_false, Option.getD_some]
  · rw [charAt_short lit (by omega)]
    simp only [low_setLow, hm, hd.1, hd.2, or_self, if_false, Option.getD_none]

theorem store_from_reg_unknown (lit src : List Char) (s : Machine)
    (hr : isKnownRegister src = false) :
    store_from_reg lit src s =
      Outcome.usage
        { gen := { s.gen with I3 := setLow s.gen.I3 (firstByte src) },
          addr := scanAddress lit ((charAt lit 6).getD 0) s.addr,
          ram := s.ram } := by
  simp only [isKnownRegister, Bool.or_eq_false_iff, decide_eq_false_iff_not] at hr
  have hm : firstByte src % 256 = firstByte src := Nat.mod_eq_of_lt (firstByte_lt src)
  unfold store_from_reg
  by_cases h6 : 6 ≤ lit.length
  · rw [charAt_six lit h6]
    simp only [low_setLow, hm, hr.1, hr.2, if_false, Option.getD_some]
  · rw [charAt_short lit (by omega)]
    simp only [low_setLow, hm, hr.1, hr.2, or_self, if_false, Option.getD_none]

theorem raw_set_unknown (dest src : List Char) (s : Machine)
    (hd : isKnownRegister dest = false) :
    raw_set dest src s =
      Outcome.usage
        { s with gen := { s.gen with I2 := charToU16 (firstByte dest),
                                     I3 := (sscanf_hi src).getD s.gen.I3 } } := by
  simp only [isKnownRegister, Bool.or_eq_false_iff, decide_eq_false_iff_not] at hd
  have hlt := firstByte_lt dest
  have h65 : ¬ low (charToU16 (firstByte dest)) = 65 := by
    unfold low charToU16
    split_ifs <;> omega
  have h66 : ¬ low (charToU16 (firstByte dest)) = 66 := by
    unfold low charToU16
    split_ifs <;> omega
  simp only [raw_set, h65, h66, if_false]

theorem reg_move_unknown (dest src : List Char) (s : Machine)
    (h : isKnownRegister dest = false ∨ isKnownRegister src = false) :
    reg_move dest src s =
      Outcome.usage
        { s with gen := { s.gen with I2 := setLow s.gen.I2 (firstByte dest),
                                     I3 := setLow s.gen.I3 (firstByte src) } } := by
  simp only [isKnownRegister, Bool.or_eq_false_iff, decide_eq_false_iff_not] at h
  have hm2 : firstByte dest % 256 = firstByte dest := Nat.mod_eq_of_lt (firstByte_lt dest)
  have hm3 : firstByte src % 256 = firstByte src := Nat.mod_eq_of_lt (firstByte_lt src)
  have h1 : ¬ (firstByte dest = 65 ∧ firstByte src = 66) := by
    rintro ⟨h2, h3⟩
    rcases h with h | h
    · exact h.1 h2
    · exact h.2 h3
  have h2 : ¬ (firstByte dest = 66 ∧ firstByte src = 65) := by
    rintro ⟨h2, h3⟩
    rcases h with h | h
    · exact h.2 h2
    · exact h.1 h3
  simp only [reg_move, low_setLow, hm2, hm3, h1, h2, if_false]

theorem charToU16_eq (b k : Nat) (hb : b < 256) (hk : k < 128) :
    charToU16 b = k ↔ b = k := by
  unfold charToU16
  split_ifs <;> omega

/-- The `switch` of `main`, by the first character of the opcode token. -/
theorem main_dispatch (prog cmd dest src : List Char) (ram0 : Nat → Nat) :
    main [prog, cmd, dest, src] ram0 =
      if firstByte cmd = 114 then raw_set dest src (atDispatch cmd ram0)
      else if firstByte cmd = 109 then reg_move dest src (atDispatch cmd ram0)
      else if firstByte cmd = 108 then load_to_reg dest src (atDispatch cmd ram0)
      else if firstByte cmd = 115 then store_from_reg dest src (atDispatch cmd ram0)
      else Outcome.usage (atDispatch cmd ram0) := by
  have hb := firstByte_lt cmd
  simp only [main, boot, charToU16_eq _ 114 hb (by decide), charToU16_eq _ 109 hb (by decide),
    charToU16_eq _ 108 hb (by decide), charToU16_eq _ 115 hb (by decide)]
  rfl

/-! ## The claims -/

/-- C1: Raw Set with a decimal literal. For every value v from 0 to 65535
written as its decimal literal in src, raw_set with dest = A returns with A
equal to v, and with dest = B returns with B equal to v; the other general
register and every memory word are unchanged. -/
theorem raw_set_decimal (s : Machine) (v : Nat) (hv : v ≤ 65535) :
    (∃ t, raw_set ['A'] (Nat.toDigits 10 v) s = Outcome.ok t ∧
      t.gen.A = v ∧ t.gen.B = s.gen.B ∧ t.ram = s.ram) ∧
    (∃ t, raw_set ['B'] (Nat.toDigits 10 v) s = Outcome.ok t ∧
      t.gen.B = v ∧ t.gen.A = s.gen.A ∧ t.ram = s.ram) := by
  constructor
  · simp only [raw_set, sscanf_hi_decimal v hv, Option.getD_some, firstByte]
    exact ⟨_, rfl, rfl, rfl, rfl⟩
  · simp only [raw_set, sscanf_hi_decimal v hv, Option.getD_some, firstByte]
    exact ⟨_, rfl, rfl, rfl, rfl⟩

theorem raw_set_decimal_witness :
    65535 ≤ 65535 ∧
    ((∃ t, raw_set ['A'] (Nat.toDigits 10 65535) (boot (fun _ => 7)) = Outcome.ok t ∧
      t.gen.A = 65535 ∧ t.gen.B = (boot (fun _ => 7)).gen.B ∧ t.ram = (boot (fun _ => 7)).ram) ∧
    (∃ t, raw_set ['B'] (Nat.toDigits 10 65535) (boot (fun _ => 7)) = Outcome.ok t ∧
      t.gen.B = 65535 ∧ t.gen.A = (boot (fun _ => 7)).gen.A ∧ t.ram = (boot (fun _ => 7)).ram)) :=
  ⟨by decide, raw_set_decimal (boot (fun _ => 7)) 65535 (by decide)⟩

/-- C2: Move is a copy, not a swap. From every state, Move with dest = A and
src = B returns with A holding the old value of B and B unchanged, Move with
dest = B and src = A returns with B holding the old value of A and A unchanged,
and in both cases no memory word changes. -/
theorem reg_move_is_copy (s : Machine) :
    (∃ t, reg_move ['A'] ['B'] s = Outcome.ok t ∧
      t.gen.A = s.gen.B ∧ t.gen.B = s.gen.B ∧ t.ram = s.ram) ∧
    (∃ t, reg_move ['B'] ['A'] s = Outcome.ok t ∧
      t.gen.B = s.gen.A ∧ t.gen.A = s.gen.A ∧ t.ram = s.ram) := by
  constructor
  · simp only [reg_move, low_setLow, firstByte]
    exact ⟨_, rfl, rfl, rfl, rfl⟩
  · simp only [reg_move, low_setLow, firstByte]
    exact ⟨_, rfl, rfl, rfl, rfl⟩

/-- C3: Load from a well-formed address literal. For every well-formed hex
address literal in src whose resolved word index is below 524288, load_to_reg
with dest = A sets A to the memory word at that index, and with dest = B sets
B to it; the other general register and every memory word are unchanged. The
address is the src operand. -/
theorem load_to_reg_reads (s : Machine) (lit : List Char)
    (hlit : isAddressLiteral lit = true) (hin : wordIndex lit s.addr < 524288) :
    (∃ t, load_to_reg ['A'] lit s = Outcome.ok t ∧
      t.gen.A = s.ram (wordIndex lit s.addr) ∧ t.gen.B = s.gen.B ∧ t.ram = s.ram) ∧
    (∃ t, load_to_reg ['B'] lit s = Outcome.ok t ∧
      t.gen.B = s.ram (wordIndex lit s.addr) ∧ t.gen.A = s.gen.A ∧ t.ram = s.ram) := by
  obtain ⟨h6, h8⟩ := isAddressLiteral_length lit hlit
  exact ⟨⟨_, load_to_reg_A ['A'] lit s rfl h6 (by omega) hin, rfl, rfl, rfl⟩,
    ⟨_, load_to_reg_B ['B'] lit s rfl h6 (by omega) hin, rfl, rfl, rfl⟩⟩

theorem load_to_reg_reads_witness :
    isAddressLiteral "0x1234".toList = true ∧
    wordIndex "0x1234".toList (boot (fun j => j + 1)).addr < 524288 ∧
    ((∃ t, load_to_reg ['A'] "0x1234".toList (boot (fun j => j + 1)) = Outcome.ok t ∧
      t.gen.A = (boot (fun j => j + 1)).ram
        (wordIndex "0x1234".toList (boot (fun j => j + 1)).addr) ∧
      t.gen.B = (boot (fun j => j + 1)).gen.B ∧ t.ram = (boot (fun j => j + 1)).ram) ∧
    (∃ t, load_to_reg ['B'] "0x1234".toList (boot (fun j => j + 1)) = Outcome.ok t ∧
      t.gen.B = (boot (fun j => j + 1)).ram
        (wordIndex "0x1234".toList (boot (fun j => j + 1)).addr) ∧
      t.gen.A = (boot (fun j => j + 1)).gen.A ∧ t.ram = (boot (fun j => j + 1)).ram)) :=
  ⟨by decide, by decide,
    load_to_reg_reads (boot (fun j => j + 1)) "0x1234".toList (by decide) (by decide)⟩

/-- C4: Store to a well-formed address literal. For every well-formed hex
address literal in dest whose resolved word index i is below 524288,
store_from_reg with src = A sets memory word i to the value of A, and with
src = B sets it to the value of B; every other memory word and both general
registers A and B are unchanged. -/
theorem store_from_reg_writes_one_word (s : Machine) (lit : List Char)
    (hlit : isAddressLiteral lit = true) (hin : wordIndex lit s.addr < 524288) :
    (∃ t, store_from_reg lit ['A'] s = Outcome.ok t ∧
      t.ram (wordIndex lit s.addr) = s.gen.A ∧
      (∀ j, j ≠ wordIndex lit s.addr → t.ram j = s.ram j) ∧
      t.gen.A = s.gen.A ∧ t.gen.B = s.gen.B) ∧
    (∃ t, store_from_reg lit ['B'] s = Outcome.ok t ∧
      t.ram (wordIndex lit s.addr) = s.gen.B ∧
      (∀ j, j ≠ wordIndex lit s.addr → t.ram j = s.ram j) ∧
      t.gen.A = s.gen.A ∧ t.gen.B = s.gen.B) := by
  obtain ⟨h6, h8⟩ := isAddressLiteral_length lit hlit
  exact ⟨⟨_, store_from_reg_A lit ['A'] s rfl h6 (by omega) hin, ramWrite_same _ _ _,
      fun j hj => ramWrite_other _ _ _ j hj, rfl, rfl⟩,
    ⟨_, store_from_reg_B lit ['B'] s rfl h6 (by omega) hin, ramWrite_same _ _ _,
      fun j hj => ramWrite_other _ _ _ j hj, rfl, rfl⟩⟩

/-- C5: Store/Load round trip. For every well-formed address literal whose
resolved index is in range, every value v and every state whose register A
holds v, Store (dest = addr, src = A) returns, and Load (dest = B, src = addr)
on the resulting state returns with register B equal to v. -/
theorem store_then_load_round_trip (s : Machine) (lit : List Char) (v : Nat)
    (hlit : isAddressLiteral lit = true) (hin : wordIndex lit s.addr < 524288)
    (hv : s.gen.A = v) :
    ∃ t u, store_from_reg lit ['A'] s = Outcome.ok t ∧
      load_to_reg ['B'] lit t = Outcome.ok u ∧ u.gen.B = v := by
  obtain ⟨h6, h8⟩ := isAddressLiteral_length lit hlit
  have hst := store_from_reg_A lit ['A'] s rfl h6 (by omega) hin
  refine ⟨_, _, hst, load_to_reg_B ['B'] lit _ rfl h6 (by omega) ?_, ?_⟩
  · show wordIndex lit (scanAddress lit ((charAt lit 6).getD 0) s.addr) < ram_words
    rw [wordIndex_again]
    exact hin
  · show ramWrite s.ram (wordIndex lit s.addr) s.gen.A
        (wordIndex lit (scanAddress lit ((charAt lit 6).getD 0) s.addr)) = v
    rw [wordIndex_again, ramWrite_same]
    exact hv

theorem store_from_reg_writes_one_word_witness :
    isAddressLiteral "0x00beEF".toList = true ∧
    wordIndex "0x00beEF".toList (boot (fun j => j + 1)).addr < 524288 ∧
    ((∃ t, store_from_reg "0x00beEF".toList ['A'] (boot (fun j => j + 1)) = Outcome.ok t ∧
      t.ram (wordIndex "0x00beEF".toList (boot (fun j => j + 1)).addr) =
        (boot (fun j => j + 1)).gen.A ∧
      (∀ j, j ≠ wordIndex "0x00beEF".toList (boot (fun j => j + 1)).addr →
        t.ram j = (boot (fun j => j + 1)).ram j) ∧
      t.gen.A = (boot (fun j => j + 1)).gen.A ∧ t.gen.B = (boot (fun j => j + 1)).gen.B) ∧
    (∃ t, store_from_reg "0x00beEF".toList ['B'] (boot (fun j => j + 1)) = Outcome.ok t ∧
      t.ram (wordIndex "0x00beEF".toList (boot (fun j => j + 1)).addr) =
        (boot (fun j => j + 1)).gen.B ∧
      (∀ j, j ≠ wordIndex "0x00beEF".toList (boot (fun j => j + 1)).addr →
        t.ram j = (boot (fun j => j + 1)).ram j) ∧
      t.gen.A = (boot (fun j => j + 1)).gen.A ∧ t.gen.B = (boot (fun j => j + 1)).gen.B)) :=
  ⟨by decide, by decide,
    store_from_reg_writes_one_word (boot (fun j => j + 1)) "0x00beEF".toList
      (by decide) (by decide)⟩

theorem store_then_load_round_trip_witness :
    isAddressLiteral "0x7fffF".toList = true ∧
    wordIndex "0x7fffF".toList
      ({ gen := { A := 4660, B := 1, I1 := 0, I2 := 0, I3 := 0 },
         addr := { D1 := 0, D2 := 0 }, ram := fun _ => 9 } : Machine).addr < 524288 ∧
    ({ gen := { A := 4660, B := 1, I1 := 0, I2 := 0, I3 := 0 },
       addr := { D1 := 0, D2 := 0 }, ram := fun _ => 9 } : Machine).gen.A = 4660 ∧
    ∃ t u, store_from_reg "0x7fffF".toList ['A']
        { gen := { A := 4660, B := 1, I1 := 0, I2 := 0, I3 := 0 },
          addr := { D1 := 0, D2 := 0 }, ram := fun _ => 9 } = Outcome.ok t ∧
      load_to_reg ['B'] "0x7fffF".toList t = Outcome.ok u ∧ u.gen.B = 4660 :=
  ⟨by decide, by decide, rfl,
    store_then_load_round_trip
      { gen := { A := 4660, B := 1, I1 := 0, I2 := 0, I3 := 0 },
        addr := { D1 := 0, D2 := 0 }, ram := fun _ => 9 }
      "0x7fffF".toList 4660 (by decide) (by decide) rfl⟩

/-- C6: a literal of `0x` and exactly 4 hex digits, resolved from address
registers whose D2 is zero (as at the start of an invocation). The 16-bit
value of the 4 digits is the word index: Load reads that word into the
destination register and Store writes the source register to it, the low
field stays 0, and `0x1234` resolves to index 0x1234. -/
theorem four_digit_literal_resolves (s : Machine) (c1 c2 c3 c4 : Char)
    (hx : ∀ x ∈ [c1, c2, c3, c4], isxdigit x = true) (hD2 : s.addr.D2 = 0) :
    hexValue [c1, c2, c3, c4] < 65536 ∧
    wordIndex ['0', 'x', c1, c2, c3, c4] s.addr = hexValue [c1, c2, c3, c4] ∧
    (∃ t, load_to_reg ['A'] ['0', 'x', c1, c2, c3, c4] s = Outcome.ok t ∧
      t.gen.A = s.ram (hexValue [c1, c2, c3, c4]) ∧ low t.addr.D2 = 0) ∧
    (∃ t, load_to_reg ['B'] ['0', 'x', c1, c2, c3, c4] s = Outcome.ok t ∧
      t.gen.B = s.ram (hexValue [c1, c2, c3, c4]) ∧ low t.addr.D2 = 0) ∧
    (∃ t, store_from_reg ['0', 'x', c1, c2, c3, c4] ['A'] s = Outcome.ok t ∧
      t.ram = ramWrite s.ram (hexValue [c1, c2, c3, c4]) s.gen.A ∧ low t.addr.D2 = 0) ∧
    (∃ t, store_from_reg ['0', 'x', c1, c2, c3, c4] ['B'] s = Outcome.ok t ∧
      t.ram = ramWrite s.ram (hexValue [c1, c2, c3, c4]) s.gen.B ∧ low t.addr.D2 = 0) ∧
    wordIndex "0x1234".toList s.addr = 0x1234 := by
  have hlow : low s.addr.D2 = 0 := by rw [hD2]; rfl
  have hlt : hexValue [c1, c2, c3, c4] < 65536 := by
    have := hexValue_lt [c1, c2, c3, c4] hx
    simp only [List.length_cons, List.length_nil] at this
    norm_num at this
    exact this
  have hidx := wordIndex_four c1 c2 c3 c4 s.addr hx hlow
  have hin : wordIndex ['0', 'x', c1, c2, c3, c4] s.addr < ram_words := by
    rw [hidx]
    have : (65536 : Nat) ≤ ram_words := by decide
    omega
  have hsc := scanAddress_four c1 c2 c3 c4 s.addr hx
  have hlen : (['0', 'x', c1, c2, c3, c4] : List Char).length = 6 := rfl
  have hlA := load_to_reg_A ['A'] ['0', 'x', c1, c2, c3, c4] s rfl (by omega) (by omega) hin
  have hlB := load_to_reg_B ['B'] ['0', 'x', c1, c2, c3, c4] s rfl (by omega) (by omega) hin
  have hsA := store_from_reg_A ['0', 'x', c1, c2, c3, c4] ['A'] s rfl (by omega) (by omega) hin
  have hsB := store_from_reg_B ['0', 'x', c1, c2, c3, c4] ['B'] s rfl (by omega) (by omega) hin
  rw [hsc, hidx] at hlA hlB hsA hsB
  refine ⟨hlt, hidx, ⟨_, hlA, rfl, hlow⟩, ⟨_, hlB, rfl, hlow⟩, ⟨_, hsA, rfl, hlow⟩,
    ⟨_, hsB, rfl, hlow⟩, ?_⟩
  exact wordIndex_four '1' '2' '3' '4' s.addr (by decide) hlow

theorem four_digit_literal_resolves_witness :
    (∀ x ∈ ['a', 'B', '0', '9'], isxdigit x = true) ∧ (boot (fun j => j + 1)).addr.D2 = 0 ∧
    (hexValue ['a', 'B', '0', '9'] < 65536 ∧
    wordIndex ['0', 'x', 'a', 'B', '0', '9'] (boot (fun j => j + 1)).addr =
      hexValue ['a', 'B', '0', '9'] ∧
    (∃ t, load_to_reg ['A'] ['0', 'x', 'a', 'B', '0', '9'] (boot (fun j => j + 1)) = Outcome.ok t ∧
      t.gen.A = (boot (fun j => j + 1)).ram (hexValue ['a', 'B', '0', '9']) ∧
      low t.addr.D2 = 0) ∧
    (∃ t, load_to_reg ['B'] ['0', 'x', 'a', 'B', '0', '9'] (boot (fun j => j + 1)) = Outcome.ok t ∧
      t.gen.B = (boot (fun j => j + 1)).ram (hexValue ['a', 'B', '0', '9']) ∧
      low t.addr.D2 = 0) ∧
    (∃ t, store_from_reg ['0', 'x', 'a', 'B', '0', '9'] ['A'] (boot (fun j => j + 1)) =
        Outcome.ok t ∧
      t.ram = ramWrite (boot (fun j => j + 1)).ram (hexValue ['a', 'B', '0', '9'])
        (boot (fun j => j + 1)).gen.A ∧ low t.addr.D2 = 0) ∧
    (∃ t, store_from_reg ['0', 'x', 'a', 'B', '0', '9'] ['B'] (boot (fun j => j + 1)) =
        Outcome.ok t ∧
      t.ram = ramWrite (boot (fun j => j + 1)).ram (hexValue ['a', 'B', '0', '9'])
        (boot (fun j => j + 1)).gen.B ∧ low t.addr.D2 = 0) ∧
    wordIndex "0x1234".toList (boot (fun j => j + 1)).addr = 0x1234) :=
  ⟨by decide, rfl,
    four_digit_literal_resolves (boot (fun j => j + 1)) 'a' 'B' '0' '9' (by decide) rfl⟩

/-- C7, as stated, fails: on `0x123456` the shift is 8 bits, not 0, and the
word index is 0x123456, not 0x1234 | 0x56; on `0x000156` Load reads word 0x156,
not word 0x0001 | 0x56. -/
theorem six_digit_shift_is_not_zero :
    shiftOf "0x123456".toList * 4 = 8 ∧
    wordIndex "0x123456".toList (boot (fun j => j)).addr = 0x123456 ∧
    wordIndex "0x123456".toList (boot (fun j => j)).addr ≠ 0x1234 ||| 0x56 ∧
    (∃ t, load_to_reg ['A'] "0x000156".toList (boot (fun j => j)) = Outcome.ok t ∧
      t.gen.A = 0x156 ∧ t.gen.A ≠ (boot (fun j => j)).ram (0x0001 ||| 0x56)) :=
  ⟨by decide, by decide, by decide, ⟨_, rfl, rfl, by decide⟩⟩

/-- C7, amended: for a literal of `0x` and exactly 6 hex digits the shift is
8 bits (`strlen` counts the `0x` prefix), so the word index is
(high_field << 8) | low_field, the numeric value of the six digits. Load and
Store access that word when it is below 524288 and index outside the mapping
otherwise; for `0x123456` the index is 0x123456. -/
theorem six_digit_literal_resolves (s : Machine) (c1 c2 c3 c4 c5 c6 : Char)
    (hx : ∀ x ∈ [c1, c2, c3, c4, c5, c6], isxdigit x = true) :
    shiftOf ['0', 'x', c1, c2, c3, c4, c5, c6] * 4 = 8 ∧
    wordIndex ['0', 'x', c1, c2, c3, c4, c5, c6] s.addr =
      hexValue [c1, c2, c3, c4] <<< 8 ||| hexValue [c5, c6] ∧
    wordIndex ['0', 'x', c1, c2, c3, c4, c5, c6] s.addr = hexValue [c1, c2, c3, c4, c5, c6] ∧
    load_to_reg ['A'] ['0', 'x', c1, c2, c3, c4, c5, c6] s =
      (if hexValue [c1, c2, c3, c4, c5, c6] < 524288 then
        Outcome.ok
          { gen := { s.gen with I2 := setLow s.gen.I2 65,
                                A := s.ram (hexValue [c1, c2, c3, c4, c5, c6]) },
            addr := { D1 := hexValue [c1, c2, c3, c4],
                      D2 := setLow s.addr.D2 (hexValue [c5, c6]) },
            ram := s.ram }
      else Outcome.undefined) ∧
    load_to_reg ['B'] ['0', 'x', c1, c2, c3, c4, c5, c6] s =
      (if hexValue [c1, c2, c3, c4, c5, c6] < 524288 then
        Outcome.ok
          { gen := { s.gen with I2 := setLow s.gen.I2 66,
                                B := s.ram (hexValue [c1, c2, c3, c4, c5, c6]) },
            addr := { D1 := hexValue [c1, c2, c3, c4],
                      D2 := setLow s.addr.D2 (hexValue [c5, c6]) },
            ram := s.ram }
      else Outcome.undefined) ∧
    store_from_reg ['0', 'x', c1, c2, c3, c4, c5, c6] ['A'] s =
      (if hexValue [c1, c2, c3, c4, c5, c6] < 524288 then
        Outcome.ok
          { gen := { s.gen with I3 := setLow s.gen.I3 65 },
            addr := { D1 := hexValue [c1, c2, c3, c4],
                      D2 := setLow s.addr.D2 (hexValue [c5, c6]) },
            ram := ramWrite s.ram (hexValue [c1, c2, c3, c4, c5, c6]) s.gen.A }
      else Outcome.undefined) ∧
    store_from_reg ['0', 'x', c1, c2, c3, c4, c5, c6] ['B'] s =
      (if hexValue [c1, c2, c3, c4, c5, c6] < 524288 then
        Outcome.ok
          { gen := { s.gen with I3 := setLow s.gen.I3 66 },
            addr := { D1 := hexValue [c1, c2, c3, c4],
                      D2 := setLow s.addr.D2 (hexValue [c5, c6]) },
            ram := ramWrite s.ram (hexValue [c1, c2, c3, c4, c5, c6]) s.gen.B }
      else Outcome.undefined) ∧
    wordIndex "0x123456".toList s.addr = 0x123456 := by
  have hhi : ∀ x ∈ [c1, c2, c3, c4], isxdigit x = true := fun x hx1 => hx x (by
    simp only [List.mem_cons, List.mem_singleton, List.not_mem_nil, or_false] at hx1 ⊢
    tauto)
  have hlo : ∀ x ∈ [c5, c6], isxdigit x = true := fun x hx1 => hx x (by
    simp only [List.mem_cons, List.mem_singleton, List.not_mem_nil, or_false] at hx1 ⊢
    tauto)
  have hlt : hexValue [c5, c6] < 2 ^ 8 := by
    have := hexValue_lt [c5, c6] hlo
    simp only [List.length_cons, List.length_nil] at this
    norm_num at this ⊢
    exact this
  have hidx := wordIndex_six c1 c2 c3 c4 c5 c6 s.addr hx
  have hsc := scanAddress_long c1 c2 c3 c4 c5 [c6] s.addr (by simp) hhi hlo
  have hsplit : hexValue [c1, c2, c3, c4, c5, c6] =
      hexValue [c1, c2, c3, c4] <<< 8 ||| hexValue [c5, c6] := by
    rw [shift_or_eq _ _ 8 hlt]
    simp only [hexValue, List.foldl_cons, List.foldl_nil]
    ring
  have hlen : (['0', 'x', c1, c2, c3, c4, c5, c6] : List Char).length = 8 := rfl
  refine ⟨rfl, by rw [hidx, hsplit], hidx, ?_, ?_, ?_, ?_, ?_⟩
  · by_cases hin : hexValue [c1, c2, c3, c4, c5, c6] < 524288
    · rw [if_pos hin, load_to_reg_A ['A'] _ s rfl (by omega) (by omega) (by rw [hidx]; exact hin),
        hsc, hidx]
    · rw [if_neg hin]
      exact load_to_reg_out ['A'] _ s (Or.inl rfl) (by omega)
        (by rw [hidx]; exact Nat.le_of_not_lt hin)
  · by_cases hin : hexValue [c1, c2, c3, c4, c5, c6] < 524288
    · rw [if_pos hin, load_to_reg_B ['B'] _ s rfl (by omega) (by omega) (by rw [hidx]; exact hin),
        hsc, hidx]
    · rw [if_neg hin]
      exact load_to_reg_out ['B'] _ s (Or.inr rfl) (by omega)
        (by rw [hidx]; exact Nat.le_of_not_lt hin)
  · by_cases hin : hexValue [c1, c2, c3, c4, c5, c6] < 524288
    · rw [if_pos hin,
        store_from_reg_A _ ['A'] s rfl (by omega) (by omega) (by rw [hidx]; exact hin),
        hsc, hidx]
    · rw [if_neg hin]
      exact store_from_reg_out _ ['A'] s (Or.inl rfl) (by omega)
        (by rw [hidx]; exact Nat.le_of_not_lt hin)
  · by_cases hin : hexValue [c1, c2, c3, c4, c5, c6] < 524288
    · rw [if_pos hin,
        store_from_reg_B _ ['B'] s rfl (by omega) (by omega) (by rw [hidx]; exact hin),
        hsc, hidx]
    · rw [if_neg hin]
      exact store_from_reg_out _ ['B'] s (Or.inr rfl) (by omega)
        (by rw [hidx]; exact Nat.le_of_not_lt hin)
  · exact wordIndex_six '1' '2' '3' '4' '5' '6' s.addr (by decide)

theorem six_digit_literal_resolves_witness :
    (∀ x ∈ ['0', '7', 'f', 'F', 'a', '9'], isxdigit x = true) ∧
    (shiftOf ['0', 'x', '0', '7', 'f', 'F', 'a', '9'] * 4 = 8 ∧
    wordIndex ['0', 'x', '0', '7', 'f', 'F', 'a', '9'] (boot (fun j => j + 1)).addr =
      hexValue ['0', '7', 'f', 'F'] <<< 8 ||| hexValue ['a', '9'] ∧
    wordIndex ['0', 'x', '0', '7', 'f', 'F', 'a', '9'] (boot (fun j => j + 1)).addr =
      hexValue ['0', '7', 'f', 'F', 'a', '9'] ∧
    load_to_reg ['A'] ['0', 'x', '0', '7', 'f', 'F', 'a', '9'] (boot (fun j => j + 1)) =
      (if hexValue ['0', '7', 'f', 'F', 'a', '9'] < 524288 then
        Outcome.ok
          { gen := { (boot (fun j => j + 1)).gen with
                       I2 := setLow (boot (fun j => j + 1)).gen.I2 65,
                       A := (boot (fun j => j + 1)).ram (hexValue ['0', '7', 'f', 'F', 'a', '9']) },
            addr := { D1 := hexValue ['0', '7', 'f', 'F'],
                      D2 := setLow (boot (fun j => j + 1)).addr.D2 (hexValue ['a', '9']) },
            ram := (boot (fun j => j + 1)).ram }
      else Outcome.undefined) ∧
    load_to_reg ['B'] ['0', 'x', '0', '7', 'f', 'F', 'a', '9'] (boot (fun j => j + 1)) =
      (if hexValue ['0', '7', 'f', 'F', 'a', '9'] < 524288 then
        Outcome.ok
          { gen := { (boot (fun j => j + 1)).gen with
                       I2 := setLow (boot (fun j => j + 1)).gen.I2 66,
                       B := (boot (fun j => j + 1)).ram (hexValue ['0', '7', 'f', 'F', 'a', '9']) },
            addr := { D1 := hexValue ['0', '7', 'f', 'F'],
                      D2 := setLow (boot (fun j => j + 1)).addr.D2 (hexValue ['a', '9']) },
            ram := (boot (fun j => j + 1)).ram }
      else Outcome.undefined) ∧
    store_from_reg ['0', 'x', '0', '7', 'f', 'F', 'a', '9'] ['A'] (boot (fun j => j + 1)) =
      (if hexValue ['0', '7', 'f', 'F', 'a', '9'] < 524288 then
        Outcome.ok
          { gen := { (boot (fun j => j + 1)).gen with
                       I3 := setLow (boot (fun j => j + 1)).gen.I3 65 },
            addr := { D1 := hexValue ['0', '7', 'f', 'F'],
                      D2 := setLow (boot (fun j => j + 1)).addr.D2 (hexValue ['a', '9']) },
            ram := ramWrite (boot (fun j => j + 1)).ram (hexValue ['0', '7', 'f', 'F', 'a', '9'])
              (boot (fun j => j + 1)).gen.A }
      else Outcome.undefined) ∧
    store_from_reg ['0', 'x', '0', '7', 'f', 'F', 'a', '9'] ['B'] (boot (fun j => j + 1)) =
      (if hexValue ['0', '7', 'f', 'F', 'a', '9'] < 524288 then
        Outcome.ok
          { gen := { (boot (fun j => j + 1)).gen with
                       I3 := setLow (boot (fun j => j + 1)).gen.I3 66 },
            addr := { D1 := hexValue ['0', '7', 'f', 'F'],
                      D2 := setLow (boot (fun j => j + 1)).addr.D2 (hexValue ['a', '9']) },
            ram := ramWrite (boot (fun j => j + 1)).ram (hexValue ['0', '7', 'f', 'F', 'a', '9'])
              (boot (fun j => j + 1)).gen.B }
      else Outcome.undefined) ∧
    wordIndex "0x123456".toList (boot (fun j => j + 1)).addr = 0x123456) :=
  ⟨by decide,
    six_digit_literal_resolves (boot (fun j => j + 1)) '0' '7' 'f' 'F' 'a' '9' (by decide)⟩

/-- C8, evaluated at `s 0x80000 A` and `l A 0x80000`: the resolved word index
is 524288, the first index past the mapping, and the handlers index `ram_mem`
there without any range check; no usage or range error is raised. -/
theorem access_past_mapping_is_unchecked (prog : List Char) (ram0 : Nat → Nat) :
    wordIndex "0x80000".toList (boot ram0).addr = 524288 ∧
    main [prog, "s".toList, "0x80000".toList, "A".toList] ram0 = Outcome.undefined ∧
    main [prog, "l".toList, "A".toList, "0x80000".toList] ram0 = Outcome.undefined := by
  have hidx : wordIndex "0x80000".toList { D1 := 0, D2 := 0 } = 524288 := by decide
  have hout : ram_words ≤ wordIndex "0x80000".toList { D1 := 0, D2 := 0 } := by
    rw [hidx]
    decide
  have h6 : 6 ≤ "0x80000".toList.length := by decide
  refine ⟨hidx, ?_, ?_⟩
  · rw [main_dispatch, if_neg (by decide), if_neg (by decide), if_neg (by decide),
      if_pos (by decide)]
    exact store_from_reg_out "0x80000".toList "A".toList (atDispatch "s".toList ram0)
      (Or.inl (by decide)) h6 hout
  · rw [main_dispatch, if_neg (by decide), if_neg (by decide), if_pos (by decide)]
    exact load_to_reg_out "A".toList "0x80000".toList (atDispatch "l".toList ram0)
      (Or.inl (by decide)) h6 hout

/-- C9, as stated, fails: the invocations `x A B` (unknown opcode) and `r C 5`
(unknown register) end in the usage error, but on a RAM image of zeros they
leave 64123 in word 0x1234, which held 0 before. -/
theorem refused_invocation_changes_a_word :
    (∃ t, main ["softcpu".toList, "x".toList, "A".toList, "B".toList] (fun _ => 0) =
        Outcome.usage t ∧ t.ram 0x1234 = 64123 ∧ t.ram 0x1234 ≠ (fun _ => 0 : Nat → Nat) 0x1234) ∧
    (∃ t, main ["softcpu".toList, "r".toList, "C".toList, "5".toList] (fun _ => 0) =
        Outcome.usage t ∧ t.ram 0x1234 = 64123 ∧ t.ram 0x1234 ≠ (fun _ => 0 : Nat → Nat) 0x1234) := by
  constructor
  · refine ⟨atDispatch "x".toList (fun _ => 0), ?_, by decide, by decide⟩
    rw [main_dispatch, if_neg (by decide), if_neg (by decide), if_neg (by decide),
      if_neg (by decide)]
  · have h := main_dispatch "softcpu".toList "r".toList "C".toList "5".toList (fun _ => 0)
    rw [if_pos (by decide),
      raw_set_unknown "C".toList "5".toList (atDispatch "r".toList (fun _ => 0)) (by decide)] at h
    exact ⟨_, h, by decide, by decide⟩

/-- C9, amended: an invocation whose opcode character is not r, m, l or s, or
whose register operand does not start with A or B, ends in the usage error
with registers A and B as they were at start (zero) and with every memory word
as before except word 0x1234, which holds 64123. -/
theorem refused_invocation_effect (prog cmd dest src : List Char) (ram0 : Nat → Nat)
    (h : isRejected cmd dest src = true) :
    ∃ t, main [prog, cmd, dest, src] ram0 = Outcome.usage t ∧
      t.gen.A = (boot ram0).gen.A ∧ t.gen.B = (boot ram0).gen.B ∧
      t.ram 0x1234 = 64123 ∧ ∀ j, j ≠ 0x1234 → t.ram j = ram0 j := by
  have hram : ∀ j, j ≠ 0x1234 → (atDispatch cmd ram0).ram j = ram0 j :=
    fun j hj => ramWrite_other ram0 0x1234 64123 j hj
  have hsent : (atDispatch cmd ram0).ram 0x1234 = 64123 := ramWrite_same ram0 0x1234 64123
  rw [main_dispatch]
  unfold isRejected at h
  by_cases hr : firstByte cmd = 114
  · rw [if_pos hr] at h ⊢
    rw [raw_set_unknown dest src _ (by simpa using h)]
    exact ⟨_, rfl, rfl, rfl, hsent, hram⟩
  rw [if_neg hr] at h ⊢
  by_cases hm : firstByte cmd = 109
  · rw [if_pos hm] at h ⊢
    have hu : isKnownRegister dest = false ∨ isKnownRegister src = false := by
      simpa using h
    rw [reg_move_unknown dest src _ hu]
    exact ⟨_, rfl, rfl, rfl, hsent, hram⟩
  rw [if_neg hm] at h ⊢
  by_cases hl : firstByte cmd = 108
  · rw [if_pos hl] at h ⊢
    rw [load_to_reg_unknown dest src _ (by simpa using h)]
    exact ⟨_, rfl, rfl, rfl, hsent, hram⟩
  rw [if_neg hl] at h ⊢
  by_cases hs : firstByte cmd = 115
  · rw [if_pos hs] at h ⊢
    rw [store_from_reg_unknown dest src _ (by simpa using h)]
    exact ⟨_, rfl, rfl, rfl, hsent, hram⟩
  rw [if_neg hs]
  exact ⟨_, rfl, rfl, rfl, hsent, hram⟩

theorem refused_invocation_effect_witness :
    isRejected "l".toList "C".toList "0x12".toList = true ∧
    ∃ t, main ["softcpu".toList, "l".toList, "C".toList, "0x12".toList] (fun j => j) =
        Outcome.usage t ∧
      t.gen.A = (boot (fun j => j)).gen.A ∧ t.gen.B = (boot (fun j => j)).gen.B ∧
      t.ram 0x1234 = 64123 ∧ ∀ j, j ≠ 0x1234 → t.ram j = (fun j => j) j :=
  ⟨by decide,
    refused_invocation_effect "softcpu".toList "l".toList "C".toList "0x12".toList
      (fun j => j) (by decide)⟩

/-- C10, as stated, fails: Move with dest = src (A, A or B, B) does not
succeed; it ends in the usage error. -/
theorem move_to_same_register_is_refused :
    (∃ t, reg_move ['A'] ['A'] (boot (fun _ => 0)) = Outcome.usage t) ∧
    (∀ t, reg_move ['A'] ['A'] (boot (fun _ => 0)) ≠ Outcome.ok t) ∧
    (∃ t, reg_move ['B'] ['B'] (boot (fun _ => 0)) = Outcome.usage t) ∧
    (∀ t, reg_move ['B'] ['B'] (boot (fun _ => 0)) ≠ Outcome.ok t) := by
  have hA : reg_move ['A'] ['A'] (boot (fun _ => 0)) =
      Outcome.usage { boot (fun _ => 0) with
        gen := { (boot (fun _ => 0)).gen with I2 := 65, I3 := 65 } } := by
    simp [reg_move, low_setLow, firstByte, boot, setLow, low]
  have hB : reg_move ['B'] ['B'] (boot (fun _ => 0)) =
      Outcome.usage { boot (fun _ => 0) with
        gen := { (boot (fun _ => 0)).gen with I2 := 66, I3 := 66 } } := by
    simp [reg_move, low_setLow, firstByte, boot, setLow, low]
  refine ⟨⟨_, hA⟩, ?_, ⟨_, hB⟩, ?_⟩
  · intro t ht
    rw [hA] at ht
    cases ht
  · intro t ht
    rw [hB] at ht
    cases ht

/-- C10, amended: for the two pairs of distinct registers (dest = A, src = B
and dest = B, src = A) Move succeeds and ends with the destination equal to
the prior value of the source and the source unchanged; with dest = src
(A, A or B, B) Move ends in the usage error and leaves A, B and memory
unchanged. -/
theorem reg_move_distinct_registers_only (s : Machine) :
    (∃ t, reg_move ['A'] ['B'] s = Outcome.ok t ∧ t.gen.A = s.gen.B ∧ t.gen.B = s.gen.B) ∧
    (∃ t, reg_move ['B'] ['A'] s = Outcome.ok t ∧ t.gen.B = s.gen.A ∧ t.gen.A = s.gen.A) ∧
    (∃ t, reg_move ['A'] ['A'] s = Outcome.usage t ∧
      t.gen.A = s.gen.A ∧ t.gen.B = s.gen.B ∧ t.ram = s.ram) ∧
    (∃ t, reg_move ['B'] ['B'] s = Outcome.usage t ∧
      t.gen.A = s.gen.A ∧ t.gen.B = s.gen.B ∧ t.ram = s.ram) := by
  refine ⟨?_, ?_, ?_, ?_⟩
  · simp only [reg_move, low_setLow, firstByte]
    exact ⟨_, rfl, rfl, rfl⟩
  · simp only [reg_move, low_setLow, firstByte]
    exact ⟨_, rfl, rfl, rfl⟩
  · simp only [reg_move, low_setLow, firstByte]
    exact ⟨_, rfl, rfl, rfl, rfl⟩
  · simp only [reg_move, low_setLow, firstByte]
    exact ⟨_, rfl, rfl, rfl, rfl⟩

/-! ## Literals of 4 to 6 digits, and stores in one invocation -/

/-- Four hex digits leave `D2` alone, so its prior low byte enters the index. -/
theorem wordIndex_four_or (c1 c2 c3 c4 : Char) (a : address)
    (h : ∀ x ∈ [c1, c2, c3, c4], isxdigit x = true) :
    wordIndex ['0', 'x', c1, c2, c3, c4] a = hexValue [c1, c2, c3, c4] ||| low a.D2 := by
  unfold wordIndex
  rw [scanAddress_four c1 c2 c3 c4 a h]
  simp [indexExpr, shiftOf]

theorem wordIndex_five (c1 c2 c3 c4 c5 : Char) (a : address)
    (h : ∀ x ∈ [c1, c2, c3, c4, c5], isxdigit x = true) :
    wordIndex ['0', 'x', c1, c2, c3, c4, c5] a = hexValue [c1, c2, c3, c4, c5] := by
  have hhi : ∀ x ∈ [c1, c2, c3, c4], isxdigit x = true := fun x hx => h x (by
    simp only [List.mem_cons, List.mem_singleton, List.not_mem_nil, or_false] at hx ⊢
    tauto)
  have hlo : ∀ x ∈ [c5], isxdigit x = true := fun x hx => h x (by
    simp only [List.mem_cons, List.mem_singleton, List.not_mem_nil, or_false] at hx ⊢
    tauto)
  have hlt : hexValue [c5] < 2 ^ 4 := by
    have := hexValue_lt [c5] hlo
    simp only [List.length_cons, List.length_nil] at this
    norm_num at this ⊢
    exact this
  have hmod : hexValue [c5] % 256 = hexValue [c5] := by
    apply Nat.mod_eq_of_lt
    have : (2 : Nat) ^ 4 = 16 := by norm_num
    omega
  unfold wordIndex
  rw [scanAddress_long c1 c2 c3 c4 c5 [] a (by simp) hhi hlo]
  have hsh : shiftOf ['0', 'x', c1, c2, c3, c4, c5] * 4 = 4 := rfl
  simp only [indexExpr, hsh, low_setLow, hmod]
  rw [shift_or_eq _ _ 4 hlt]
  simp only [hexValue, List.foldl_cons, List.foldl_nil]
  ring

/-- With the low byte of `D2` zero, a literal of 4, 5 or 6 hex digits resolves
to the numeric value of its digits. -/
theorem wordIndex_literal (ds : List Char) (a : address)
    (h4 : 4 ≤ ds.length) (h6 : ds.length ≤ 6) (hx : ∀ x ∈ ds, isxdigit x = true)
    (hD2 : low a.D2 = 0) :
    wordIndex ('0' :: 'x' :: ds) a = hexValue ds := by
  match ds, h4, h6, hx with
  | [c1, c2, c3, c4], _, _, hx => exact wordIndex_four c1 c2 c3 c4 a hx hD2
  | [c1, c2, c3, c4, c5], _, _, hx => exact wordIndex_five c1 c2 c3 c4 c5 a hx
  | [c1, c2, c3, c4, c5, c6], _, _, hx => exact wordIndex_six c1 c2 c3 c4 c5 c6 a hx
  | _ :: _ :: _ :: _ :: _ :: _ :: _ :: _, _, h6, _ => simp at h6
  | [], h4, _, _ => simp at h4
  | [_], h4, _, _ => simp at h4
  | [_, _], h4, _, _ => simp at h4
  | [_, _, _], h4, _, _ => simp at h4

theorem ramSlot_wide (a : address) (lit : List Char) (h : 13 < lit.length) :
    ramSlot a (shiftOf lit) = none := by
  unfold ramSlot
  rw [if_neg]
  intro hc
  have := hc.1
  unfold shiftOf at this
  omega

/-- Store from register A, every case: it returns exactly when the literal
has 6 to 13 characters and its word index is inside the mapping. -/
theorem store_from_reg_A_cases (lit src : List Char) (s : Machine) (hr : firstByte src = 65) :
    store_from_reg lit src s =
      if 6 ≤ lit.length ∧ lit.length ≤ 13 ∧ wordIndex lit s.addr < ram_words then
        Outcome.ok
          { gen := { s.gen with I3 := setLow s.gen.I3 65 },
            addr := scanAddress lit ((charAt lit 6).getD 0) s.addr,
            ram := ramWrite s.ram (wordIndex lit s.addr) s.gen.A }
      else Outcome.undefined := by
  by_cases h : 6 ≤ lit.length ∧ lit.length ≤ 13 ∧ wordIndex lit s.addr < ram_words
  · rw [if_pos h]
    exact store_from_reg_A lit src s hr h.1 h.2.1 h.2.2
  · rw [if_neg h]
    by_cases h6 : 6 ≤ lit.length
    · by_cases h13 : lit.length ≤ 13
      · exact store_from_reg_out lit src s (Or.inl hr) h6
          (Nat.le_of_not_lt (fun hin => h ⟨h6, h13, hin⟩))
      · unfold store_from_reg
        rw [charAt_six lit h6]
        simp [hr, low_setLow, ramSlot_wide _ lit (by omega)]
    · unfold store_from_reg
      rw [charAt_short lit (by omega)]
      simp [hr, low_setLow]

/-- Store from register B, every case. -/
theorem store_from_reg_B_cases (lit src : List Char) (s : Machine) (hr : firstByte src = 66) :
    store_from_reg lit src s =
      if 6 ≤ lit.length ∧ lit.length ≤ 13 ∧ wordIndex lit s.addr < ram_words then
        Outcome.ok
          { gen := { s.gen with I3 := setLow s.gen.I3 66 },
            addr := scanAddress lit ((charAt lit 6).getD 0) s.addr,
            ram := ramWrite s.ram (wordIndex lit s.addr) s.gen.B }
      else Outcome.undefined := by
  by_cases h : 6 ≤ lit.length ∧ lit.length ≤ 13 ∧ wordIndex lit s.addr < ram_words
  · rw [if_pos h]
    exact store_from_reg_B lit src s hr h.1 h.2.1 h.2.2
  · rw [if_neg h]
    by_cases h6 : 6 ≤ lit.length
    · by_cases h13 : lit.length ≤ 13
      · exact store_from_reg_out lit src s (Or.inr hr) h6
          (Nat.le_of_not_lt (fun hin => h ⟨h6, h13, hin⟩))
      · unfold store_from_reg
        rw [charAt_six lit h6]
        simp [hr, low_setLow, ramSlot_wide _ lit (by omega)]
    · unfold store_from_reg
      rw [charAt_short lit (by omega)]
      simp [hr, low_setLow]

/-- Load into register A or B, every case on a literal of 6 to 13 characters:
it returns exactly when the word index is inside the mapping. -/
theorem load_to_reg_A_cases (dest lit : List Char) (s : Machine) (hd : firstByte dest = 65)
    (h6 : 6 ≤ lit.length) (h13 : lit.length ≤ 13) :
    load_to_reg dest lit s =
      if wordIndex lit s.addr < ram_words then
        Outcome.ok
          { gen := { s.gen with I2 := setLow s.gen.I2 65, A := s.ram (wordIndex lit s.addr) },
            addr := scanAddress lit ((charAt lit 6).getD 0) s.addr,
            ram := s.ram }
      else Outcome.undefined := by
  by_cases hin : wordIndex lit s.addr < ram_words
  · rw [if_pos hin]
    exact load_to_reg_A dest lit s hd h6 h13 hin
  · rw [if_neg hin]
    exact load_to_reg_out dest lit s (Or.inl hd) h6 (Nat.le_of_not_lt hin)

theorem load_to_reg_B_cases (dest lit : List Char) (s : Machine) (hd : firstByte dest = 66)
    (h6 : 6 ≤ lit.length) (h13 : lit.length ≤ 13) :
    load_to_reg dest lit s =
      if wordIndex lit s.addr < ram_words then
        Outcome.ok
          { gen := { s.gen with I2 := setLow s.gen.I2 66, B := s.ram (wordIndex lit s.addr) },
            addr := scanAddress lit ((charAt lit 6).getD 0) s.addr,
            ram := s.ram }
      else Outcome.undefined := by
  by_cases hin : wordIndex lit s.addr < ram_words
  · rw [if_pos hin]
    exact load_to_reg_B dest lit s hd h6 h13 hin
  · rw [if_neg hin]
    exact load_to_reg_out dest lit s (Or.inr hd) h6 (Nat.le_of_not_lt hin)

/-- An invocation whose opcode character is `s` runs `store_from_reg`. -/
theorem main_store (prog cmd dest src : List Char) (ram0 : Nat → Nat)
    (hcmd : firstByte cmd = 115) :
    main [prog, cmd, dest, src] ram0 = store_from_reg dest src (atDispatch cmd ram0) := by
  rw [main_dispatch, if_neg (by omega), if_neg (by omega), if_neg (by omega), if_pos hcmd]

/-- An invocation whose opcode character is `l` runs `load_to_reg`. -/
theorem main_load (prog cmd dest src : List Char) (ram0 : Nat → Nat)
    (hcmd : firstByte cmd = 108) :
    main [prog, cmd, dest, src] ram0 = load_to_reg dest src (atDispatch cmd ram0) := by
  rw [main_dispatch, if_neg (by omega), if_neg (by omega), if_pos hcmd]

/-- An invocation whose opcode character is `r` runs `raw_set`. -/
theorem main_raw (prog cmd dest src : List Char) (ram0 : Nat → Nat)
    (hcmd : firstByte cmd = 114) :
    main [prog, cmd, dest, src] ram0 = raw_set dest src (atDispatch cmd ram0) := by
  rw [main_dispatch, if_pos hcmd]

/-- A fresh invocation `l B lit` on an in-range literal: B receives the word
of the image in which word 0x1234 has been overwritten. -/
theorem main_load_B (prog cmd dest lit : List Char) (ram0 : Nat → Nat)
    (hcmd : firstByte cmd = 108) (hd : firstByte dest = 66)
    (h6 : 6 ≤ lit.length) (h13 : lit.length ≤ 13)
    (hin : wordIndex lit { D1 := 0, D2 := 0 } < ram_words) :
    main [prog, cmd, dest, lit] ram0 =
      Outcome.ok
        { gen := { A := 0,
                   B := ramWrite ram0 0x1234 64123 (wordIndex lit { D1 := 0, D2 := 0 }),
                   I1 := charToU16 (firstByte cmd), I2 := setLow 0 66, I3 := 0 },
          addr := scanAddress lit ((charAt lit 6).getD 0) { D1 := 0, D2 := 0 },
          ram := ramWrite ram0 0x1234 64123 } := by
  rw [main_load prog cmd dest lit ram0 hcmd]
  exact load_to_reg_B dest lit (atDispatch cmd ram0) hd h6 h13 hin

/-- An invocation `s lit R` with R starting with A or B, every case: the
registers are zero, so the word written, if any, receives 0. -/
theorem main_store_cases (prog cmd lit src : List Char) (ram0 : Nat → Nat)
    (hcmd : firstByte cmd = 115) (hr : firstByte src = 65 ∨ firstByte src = 66) :
    main [prog, cmd, lit, src] ram0 =
      if 6 ≤ lit.length ∧ lit.length ≤ 13 ∧ wordIndex lit { D1 := 0, D2 := 0 } < ram_words then
        Outcome.ok
          { gen := { A := 0, B := 0, I1 := charToU16 (firstByte cmd), I2 := 0,
                     I3 := setLow 0 (firstByte src) },
            addr := scanAddress lit ((charAt lit 6).getD 0) { D1 := 0, D2 := 0 },
            ram := ramWrite (ramWrite ram0 0x1234 64123) (wordIndex lit { D1 := 0, D2 := 0 }) 0 }
      else Outcome.undefined := by
  rw [main_store prog cmd lit src ram0 hcmd]
  rcases hr with hr | hr
  · rw [store_from_reg_A_cases lit src (atDispatch cmd ram0) hr, hr]
    rfl
  · rw [store_from_reg_B_cases lit src (atDispatch cmd ram0) hr, hr]
    rfl

/-- C11, as stated, fails at word 0x1234: the invocation `s 0x1234 A` succeeds
and leaves 0 in word 0x1234, but the fresh invocation `l B 0x1234` on the
resulting image first writes 64123 to that word and loads 64123, not 0. -/
theorem fresh_load_misses_store_at_0x1234 :
    ∃ t u, main ["softcpu".toList, "s".toList, "0x1234".toList, "A".toList] (fun _ => 7) =
        Outcome.ok t ∧ t.ram 0x1234 = 0 ∧
      main ["softcpu".toList, "l".toList, "B".toList, "0x1234".toList] t.ram = Outcome.ok u ∧
      u.gen.B = 64123 ∧ u.gen.B ≠ t.ram 0x1234 := by
  have hidx : wordIndex "0x1234".toList { D1 := 0, D2 := 0 } = 0x1234 := by decide
  have hin : wordIndex "0x1234".toList { D1 := 0, D2 := 0 } < ram_words := by
    rw [hidx]
    decide
  have h6 : 6 ≤ "0x1234".toList.length := by decide
  have h13 : "0x1234".toList.length ≤ 13 := by decide
  have hs := main_store_cases "softcpu".toList "s".toList "0x1234".toList "A".toList
    (fun _ => 7) (by decide) (Or.inl (by decide))
  rw [if_pos ⟨h6, h13, hin⟩] at hs
  have hl := fun r : Nat → Nat =>
    main_load_B "softcpu".toList "l".toList "B".toList "0x1234".toList r
      (by decide) (by decide) h6 h13 hin
  refine ⟨_, _, hs, ?_, hl _, ?_, ?_⟩
  · dsimp only
    rw [hidx]
    exact ramWrite_same _ _ _
  · dsimp only
    rw [hidx]
    exact ramWrite_same _ _ _
  · dsimp only
    rw [hidx, ramWrite_same, ramWrite_same]
    decide

/-- C11, amended: persistence across invocations for every word but 0x1234.
For every well-formed in-range address literal whose word index is not 0x1234
and every register R in A, B, the invocation `s a R` succeeds, and a fresh
invocation `l B a` on the resulting memory image succeeds and loads into B the
value that the store left at the word of a. -/
theorem store_then_fresh_load (prog1 prog2 lit src : List Char) (ram0 : Nat → Nat)
    (hlit : isAddressLiteral lit = true) (hsrc : src = ['A'] ∨ src = ['B'])
    (hin : wordIndex lit { D1 := 0, D2 := 0 } < 524288)
    (hne : wordIndex lit { D1 := 0, D2 := 0 } ≠ 0x1234) :
    ∃ t u, main [prog1, "s".toList, lit, src] ram0 = Outcome.ok t ∧
      main [prog2, "l".toList, "B".toList, lit] t.ram = Outcome.ok u ∧
      u.gen.B = t.ram (wordIndex lit { D1 := 0, D2 := 0 }) := by
  obtain ⟨h6, h8⟩ := isAddressLiteral_length lit hlit
  have h13 : lit.length ≤ 13 := by omega
  have hl := fun r : Nat → Nat =>
    main_load_B prog2 "l".toList "B".toList lit r (by decide) (by decide) h6 h13 hin
  have hr : firstByte src = 65 ∨ firstByte src = 66 := by
    rcases hsrc with hsrc | hsrc
    · exact Or.inl (by rw [hsrc]; rfl)
    · exact Or.inr (by rw [hsrc]; rfl)
  have hs := main_store_cases prog1 "s".toList lit src ram0 (by decide) hr
  rw [if_pos ⟨h6, h13, hin⟩] at hs
  exact ⟨_, _, hs, hl _, ramWrite_other _ _ _ _ hne⟩

theorem store_then_fresh_load_witness :
    isAddressLiteral "0x00beEF".toList = true ∧ (['A'] = ['A'] ∨ ['A'] = ['B']) ∧
    wordIndex "0x00beEF".toList { D1 := 0, D2 := 0 } < 524288 ∧
    wordIndex "0x00beEF".toList { D1 := 0, D2 := 0 } ≠ 0x1234 ∧
    ∃ t u, main ["softcpu".toList, "s".toList, "0x00beEF".toList, ['A']] (fun j => j + 1) =
        Outcome.ok t ∧
      main ["softcpu".toList, "l".toList, "B".toList, "0x00beEF".toList] t.ram = Outcome.ok u ∧
      u.gen.B = t.ram (wordIndex "0x00beEF".toList { D1 := 0, D2 := 0 }) :=
  ⟨by decide, Or.inl rfl, by decide, by decide,
    store_then_fresh_load "softcpu".toList "softcpu".toList "0x00beEF".toList ['A']
      (fun j => j + 1) (by decide) (Or.inl rfl) (by decide) (by decide)⟩

/-- C12: every invocation with exactly three arguments writes 64123 to word
0x1234 before the instruction is dispatched, whatever the opcode and operands:
the handler chosen by the opcode character, or the usage error of an
unrecognised opcode, starts from the image in which word 0x1234 holds 64123
and every other word is as in the backing file. -/
theorem sentinel_written_before_dispatch (prog cmd dest src : List Char) (ram0 : Nat → Nat) :
    (atDispatch cmd ram0).ram 0x1234 = 64123 ∧
    (∀ j, j ≠ 0x1234 → (atDispatch cmd ram0).ram j = ram0 j) ∧
    main [prog, cmd, dest, src] ram0 =
      (if firstByte cmd = 114 then raw_set dest src (atDispatch cmd ram0)
       else if firstByte cmd = 109 then reg_move dest src (atDispatch cmd ram0)
       else if firstByte cmd = 108 then load_to_reg dest src (atDispatch cmd ram0)
       else if firstByte cmd = 115 then store_from_reg dest src (atDispatch cmd ram0)
       else Outcome.usage (atDispatch cmd ram0)) ∧
    main [prog, "x".toList, dest, src] ram0 =
      Outcome.usage
        { gen := { A := 0, B := 0, I1 := 120, I2 := 0, I3 := 0 },
          addr := { D1 := 0, D2 := 0 },
          ram := ramWrite ram0 0x1234 64123 } := by
  refine ⟨ramWrite_same ram0 0x1234 64123,
    fun j hj => ramWrite_other ram0 0x1234 64123 j hj,
    main_dispatch prog cmd dest src ram0, ?_⟩
  rw [main_dispatch, if_neg (by decide), if_neg (by decide), if_neg (by decide),
    if_neg (by decide)]
  rfl

/-- C13, as stated, fails: on a state with A = 5 and I3 = 7, Raw Set with
dest = A and the unparsable literal `xyz` returns without error but with
A = 7, the stale value of I3, not the prior 5. -/
theorem failed_parse_overwrites_destination :
    sscanf_hi "xyz".toList = none ∧
    ∃ t, raw_set ['A'] "xyz".toList
        { gen := { A := 5, B := 0, I1 := 114, I2 := 0, I3 := 7 },
          addr := { D1 := 0, D2 := 0 }, ram := fun _ => 0 } = Outcome.ok t ∧
      t.gen.A = 7 ∧ t.gen.A ≠ 5 := by
  have hfail : sscanf_hi "xyz".toList = none := by decide
  refine ⟨hfail, ?_⟩
  simp only [raw_set, hfail, Option.getD_none, firstByte]
  exact ⟨_, rfl, rfl, by decide⟩

/-- C13, amended: when the src literal cannot be parsed as an integer (such
as `xyz`) and dest is A or B, raw_set signals no error and sets the
destination register to the prior value of the scratch register I3, which the
failed parse leaves untouched, for every prior state; the other general
register and memory are unchanged. In an invocation, where every register
starts at zero, the destination register therefore stays zero. -/
theorem raw_set_failed_parse (s : Machine) (src : List Char) (hfail : sscanf_hi src = none) :
    (∃ t, raw_set ['A'] src s = Outcome.ok t ∧
      t.gen.A = s.gen.I3 ∧ t.gen.I3 = s.gen.I3 ∧ t.gen.B = s.gen.B ∧ t.ram = s.ram) ∧
    (∃ t, raw_set ['B'] src s = Outcome.ok t ∧
      t.gen.B = s.gen.I3 ∧ t.gen.I3 = s.gen.I3 ∧ t.gen.A = s.gen.A ∧ t.ram = s.ram) ∧
    (∀ (prog : List Char) (ram0 : Nat → Nat),
      ∃ t, main [prog, "r".toList, ['A'], src] ram0 = Outcome.ok t ∧
        t.gen.A = 0 ∧ t.gen.B = 0) ∧
    (∀ (prog : List Char) (ram0 : Nat → Nat),
      ∃ t, main [prog, "r".toList, ['B'], src] ram0 = Outcome.ok t ∧
        t.gen.A = 0 ∧ t.gen.B = 0) ∧
    sscanf_hi "xyz".toList = none := by
  have hA : ∀ u : Machine, raw_set ['A'] src u =
      Outcome.ok { u with gen := { u.gen with I2 := 65, I3 := u.gen.I3, A := u.gen.I3 } } := by
    intro u
    simp only [raw_set, hfail, Option.getD_none, firstByte]
    rfl
  have hB : ∀ u : Machine, raw_set ['B'] src u =
      Outcome.ok { u with gen := { u.gen with I2 := 66, I3 := u.gen.I3, B := u.gen.I3 } } := by
    intro u
    simp only [raw_set, hfail, Option.getD_none, firstByte]
    rfl
  refine ⟨⟨_, hA s, rfl, rfl, rfl, rfl⟩, ⟨_, hB s, rfl, rfl, rfl, rfl⟩, ?_, ?_, by decide⟩
  · intro prog ram0
    have h := main_raw prog "r".toList ['A'] src ram0 (by decide)
    rw [hA] at h
    exact ⟨_, h, rfl, rfl⟩
  · intro prog ram0
    have h := main_raw prog "r".toList ['B'] src ram0 (by decide)
    rw [hB] at h
    exact ⟨_, h, rfl, rfl⟩

theorem raw_set_failed_parse_witness :
    sscanf_hi "xyz".toList = none ∧
    ∃ t, raw_set ['A'] "xyz".toList
        { gen := { A := 5, B := 3, I1 := 114, I2 := 0, I3 := 7 },
          addr := { D1 := 0, D2 := 0 }, ram := fun _ => 0 } = Outcome.ok t ∧
      t.gen.A = 7 ∧ t.gen.I3 = 7 ∧ t.gen.B = 3 ∧ t.ram = fun _ => 0 :=
  ⟨by decide,
    (raw_set_failed_parse
      { gen := { A := 5, B := 3, I1 := 114, I2 := 0, I3 := 7 },
        addr := { D1 := 0, D2 := 0 }, ram := fun _ => 0 }
      "xyz".toList (by decide)).1⟩

/-- C14: from address registers that are zero (D2 = 0 is what matters), a
literal of `0x` and 4, 5 or 6 hex digits makes Load and Store compute the word
index (D1 << 4 * (strlen - 6)) | D2.low, with strlen counting the prefix, equal
to the numeric value of the whole hex literal: Load reads that word and Store
writes it when the value is below 524288, and both index outside the mapping
otherwise (`0x12345` gives 0x12345, `0x123456` gives 0x123456). For 7 digits
this fails: Load of `0x0000123` reads word 0x12, not word 0x123, and
`0x1234567` gives index 0x1234056. -/
theorem literal_index_is_hex_value (s : Machine) (ds : List Char)
    (h4 : 4 ≤ ds.length) (h6 : ds.length ≤ 6) (hx : ∀ x ∈ ds, isxdigit x = true)
    (hD2 : s.addr.D2 = 0) :
    shiftOf ('0' :: 'x' :: ds) = ds.length - 4 ∧
    wordIndex ('0' :: 'x' :: ds) s.addr = hexValue ds ∧
    load_to_reg ['A'] ('0' :: 'x' :: ds) s =
      (if hexValue ds < 524288 then
        Outcome.ok
          { gen := { s.gen with I2 := setLow s.gen.I2 65, A := s.ram (hexValue ds) },
            addr := scanAddress ('0' :: 'x' :: ds) ((charAt ('0' :: 'x' :: ds) 6).getD 0) s.addr,
            ram := s.ram }
      else Outcome.undefined) ∧
    load_to_reg ['B'] ('0' :: 'x' :: ds) s =
      (if hexValue ds < 524288 then
        Outcome.ok
          { gen := { s.gen with I2 := setLow s.gen.I2 66, B := s.ram (hexValue ds) },
            addr := scanAddress ('0' :: 'x' :: ds) ((charAt ('0' :: 'x' :: ds) 6).getD 0) s.addr,
            ram := s.ram }
      else Outcome.undefined) ∧
    store_from_reg ('0' :: 'x' :: ds) ['A'] s =
      (if hexValue ds < 524288 then
        Outcome.ok
          { gen := { s.gen with I3 := setLow s.gen.I3 65 },
            addr := scanAddress ('0' :: 'x' :: ds) ((charAt ('0' :: 'x' :: ds) 6).getD 0) s.addr,
            ram := ramWrite s.ram (hexValue ds) s.gen.A }
      else Outcome.undefined) ∧
    store_from_reg ('0' :: 'x' :: ds) ['B'] s =
      (if hexValue ds < 524288 then
        Outcome.ok
          { gen := { s.gen with I3 := setLow s.gen.I3 66 },
            addr := scanAddress ('0' :: 'x' :: ds) ((charAt ('0' :: 'x' :: ds) 6).getD 0) s.addr,
            ram := ramWrite s.ram (hexValue ds) s.gen.B }
      else Outcome.undefined) ∧
    (∃ t, load_to_reg ['A'] "0x12345".toList s = Outcome.ok t ∧ t.gen.A = s.ram 0x12345) ∧
    (∃ t, store_from_reg "0x012345".toList ['B'] s = Outcome.ok t ∧
      t.ram = ramWrite s.ram 0x12345 s.gen.B) ∧
    (∃ t, load_to_reg ['A'] "0x0000123".toList s = Outcome.ok t ∧ t.gen.A = s.ram 0x12) ∧
    (∃ t, store_from_reg "0x0000123".toList ['A'] s = Outcome.ok t ∧
      t.ram = ramWrite s.ram 0x12 s.gen.A) ∧
    hexValue "0000123".toList = 0x123 ∧
    wordIndex "0x1234567".toList s.addr = 0x1234056 ∧
    hexValue "1234567".toList = 0x1234567 := by
  have hlow : low s.addr.D2 = 0 := by rw [hD2]; rfl
  have hsh : shiftOf ('0' :: 'x' :: ds) = ds.length - 4 := by
    simp only [shiftOf, List.length_cons]
    omega
  have hidx := wordIndex_literal ds s.addr h4 h6 hx hlow
  have hlen6 : 6 ≤ ('0' :: 'x' :: ds).length := by simp only [List.length_cons]; omega
  have hlen13 : ('0' :: 'x' :: ds).length ≤ 13 := by simp only [List.length_cons]; omega
  have hw : ram_words = 524288 := by decide
  have hlA := load_to_reg_A_cases ['A'] ('0' :: 'x' :: ds) s rfl hlen6 hlen13
  have hlB := load_to_reg_B_cases ['B'] ('0' :: 'x' :: ds) s rfl hlen6 hlen13
  have hsA := store_from_reg_A_cases ('0' :: 'x' :: ds) ['A'] s rfl
  have hsB := store_from_reg_B_cases ('0' :: 'x' :: ds) ['B'] s rfl
  rw [hidx, hw] at hlA hlB hsA hsB
  have hstA : store_from_reg ('0' :: 'x' :: ds) ['A'] s =
      (if hexValue ds < 524288 then
        Outcome.ok
          { gen := { s.gen with I3 := setLow s.gen.I3 65 },
            addr := scanAddress ('0' :: 'x' :: ds) ((charAt ('0' :: 'x' :: ds) 6).getD 0) s.addr,
            ram := ramWrite s.ram (hexValue ds) s.gen.A }
      else Outcome.undefined) := by
    rw [hsA]
    by_cases hin : hexValue ds < 524288
    · rw [if_pos ⟨hlen6, hlen13, hin⟩, if_pos hin]
    · rw [if_neg (fun hc => hin hc.2.2), if_neg hin]
  have hstB : store_from_reg ('0' :: 'x' :: ds) ['B'] s =
      (if hexValue ds < 524288 then
        Outcome.ok
          { gen := { s.gen with I3 := setLow s.gen.I3 66 },
            addr := scanAddress ('0' :: 'x' :: ds) ((charAt ('0' :: 'x' :: ds) 6).getD 0) s.addr,
            ram := ramWrite s.ram (hexValue ds) s.gen.B }
      else Outcome.undefined) := by
    rw [hsB]
    by_cases hin : hexValue ds < 524288
    · rw [if_pos ⟨hlen6, hlen13, hin⟩, if_pos hin]
    · rw [if_neg (fun hc => hin hc.2.2), if_neg hin]
  -- the concrete literals
  have hi5 : wordIndex ['0', 'x', '1', '2', '3', '4', '5'] s.addr = 0x12345 :=
    (wordIndex_five '1' '2' '3' '4' '5' s.addr (by decide)).trans (by decide)
  have hi6 : wordIndex ['0', 'x', '0', '1', '2', '3', '4', '5'] s.addr = 0x12345 :=
    (wordIndex_six '0' '1' '2' '3' '4' '5' s.addr (by decide)).trans (by decide)
  have h4a : sscanf_4hX ['0', '0', '0', '0', '1', '2', '3'] = some 0 := by decide
  have h2a : sscanf_2hhX ['1', '2', '3'] = some 0x12 := by decide
  have h4b : sscanf_4hX ['1', '2', '3', '4', '5', '6', '7'] = some 0x1234 := by decide
  have h2b : sscanf_2hhX ['5', '6', '7'] = some 0x56 := by decide
  have hsc7 : scanAddress ['0', 'x', '0', '0', '0', '0', '1', '2', '3']
      ((charAt ['0', 'x', '0', '0', '0', '0', '1', '2', '3'] 6).getD 0) s.addr =
      { D1 := 0, D2 := setLow s.addr.D2 0x12 } := by
    simp [scanAddress, charAt, h4a, h2a]
  have hsc7b : scanAddress ['0', 'x', '1', '2', '3', '4', '5', '6', '7']
      ((charAt ['0', 'x', '1', '2', '3', '4', '5', '6', '7'] 6).getD 0) s.addr =
      { D1 := 0x1234, D2 := setLow s.addr.D2 0x56 } := by
    simp [scanAddress, charAt, h4b, h2b]
  have hi7 : wordIndex ['0', 'x', '0', '0', '0', '0', '1', '2', '3'] s.addr = 0x12 := by
    unfold wordIndex
    rw [hsc7]
    simp only [indexExpr, low_setLow]
    decide
  have hi7b : wordIndex ['0', 'x', '1', '2', '3', '4', '5', '6', '7'] s.addr = 0x1234056 := by
    unfold wordIndex
    rw [hsc7b]
    simp only [indexExpr, low_setLow]
    decide
  have hl5 := load_to_reg_A ['A'] ['0', 'x', '1', '2', '3', '4', '5'] s rfl
    (by decide) (by decide) (by rw [hi5]; decide)
  have hs6 := store_from_reg_B ['0', 'x', '0', '1', '2', '3', '4', '5'] ['B'] s rfl
    (by decide) (by decide) (by rw [hi6]; decide)
  have hl7 := load_to_reg_A ['A'] ['0', 'x', '0', '0', '0', '0', '1', '2', '3'] s rfl
    (by decide) (by decide) (by rw [hi7]; decide)
  have hs7 := store_from_reg_A ['0', 'x', '0', '0', '0', '0', '1', '2', '3'] ['A'] s rfl
    (by decide) (by decide) (by rw [hi7]; decide)
  rw [hi5] at hl5
  rw [hi6] at hs6
  rw [hi7] at hl7 hs7
  exact ⟨hsh, hidx, hlA, hlB, hstA, hstB, ⟨_, hl5, rfl⟩, ⟨_, hs6, rfl⟩, ⟨_, hl7, rfl⟩,
    ⟨_, hs7, rfl⟩, by decide, hi7b, by decide⟩

theorem literal_index_is_hex_value_witness :
    4 ≤ "7fffF".toList.length ∧ "7fffF".toList.length ≤ 6 ∧
    (∀ x ∈ "7fffF".toList, isxdigit x = true) ∧ (boot (fun j => j + 1)).addr.D2 = 0 ∧
    wordIndex ('0' :: 'x' :: "7fffF".toList) (boot (fun j => j + 1)).addr =
      hexValue "7fffF".toList ∧
    load_to_reg ['A'] ('0' :: 'x' :: "7fffF".toList) (boot (fun j => j + 1)) =
      (if hexValue "7fffF".toList < 524288 then
        Outcome.ok
          { gen := { (boot (fun j => j + 1)).gen with
                       I2 := setLow (boot (fun j => j + 1)).gen.I2 65,
                       A := (boot (fun j => j + 1)).ram (hexValue "7fffF".toList) },
            addr := scanAddress ('0' :: 'x' :: "7fffF".toList)
              ((charAt ('0' :: 'x' :: "7fffF".toList) 6).getD 0) (boot (fun j => j + 1)).addr,
            ram := (boot (fun j => j + 1)).ram }
      else Outcome.undefined) ∧
    hexValue "7fffF".toList = 0x7ffff :=
  ⟨by decide, by decide, by decide, rfl,
    (literal_index_is_hex_value (boot (fun j => j + 1)) "7fffF".toList
      (by decide) (by decide) (by decide) rfl).2.1,
    (literal_index_is_hex_value (boot (fun j => j + 1)) "7fffF".toList
      (by decide) (by decide) (by decide) rfl).2.2.1,
    by decide⟩

/-- C15: in an invocation the general registers are zero when the single
instruction runs, so a Store `s addr R` with R starting with A or B either
indexes outside the mapping or the argument (no result) or returns having
written the value 0 to the addressed word; it returns exactly when the
literal has 6 to 13 characters and its word index is below 524288. No
invocation stores a non-zero register value. -/
theorem invocation_store_writes_zero (prog cmd lit src : List Char) (ram0 : Nat → Nat)
    (hcmd : firstByte cmd = 115) (hr : isKnownRegister src = true) :
    (atDispatch cmd ram0).gen.A = 0 ∧ (atDispatch cmd ram0).gen.B = 0 ∧
    main [prog, cmd, lit, src] ram0 =
      (if 6 ≤ lit.length ∧ lit.length ≤ 13 ∧ wordIndex lit { D1 := 0, D2 := 0 } < 524288 then
        Outcome.ok
          { gen := { A := 0, B := 0, I1 := 115, I2 := 0, I3 := setLow 0 (firstByte src) },
            addr := scanAddress lit ((charAt lit 6).getD 0) { D1 := 0, D2 := 0 },
            ram := ramWrite (ramWrite ram0 0x1234 64123) (wordIndex lit { D1 := 0, D2 := 0 }) 0 }
      else Outcome.undefined) ∧
    (∀ t, main [prog, cmd, lit, src] ram0 = Outcome.ok t →
      t.ram (wordIndex lit { D1 := 0, D2 := 0 }) = 0 ∧
      ∀ j, j ≠ wordIndex lit { D1 := 0, D2 := 0 } → t.ram j = ramWrite ram0 0x1234 64123 j) := by
  have hr2 : firstByte src = 65 ∨ firstByte src = 66 := by
    simpa [isKnownRegister] using hr
  have hI1 : charToU16 (firstByte cmd) = 115 := by
    rw [hcmd]
    rfl
  have hmain := main_store_cases prog cmd lit src ram0 hcmd hr2
  rw [hI1] at hmain
  refine ⟨rfl, rfl, hmain, ?_⟩
  intro t ht
  rw [hmain] at ht
  by_cases hc : 6 ≤ lit.length ∧ lit.length ≤ 13 ∧ wordIndex lit { D1 := 0, D2 := 0 } < ram_words
  · rw [if_pos hc] at ht
    cases ht
    exact ⟨ramWrite_same _ _ _, fun j hj => ramWrite_other _ _ _ j hj⟩
  · rw [if_neg hc] at ht
    cases ht

theorem invocation_store_writes_zero_witness :
    firstByte "s".toList = 115 ∧ isKnownRegister "A".toList = true ∧
    main ["softcpu".toList, "s".toList, "0x00beEF".toList, "A".toList] (fun j => j + 1) =
      (if 6 ≤ "0x00beEF".toList.length ∧ "0x00beEF".toList.length ≤ 13 ∧
          wordIndex "0x00beEF".toList { D1 := 0, D2 := 0 } < 524288 then
        Outcome.ok
          { gen := { A := 0, B := 0, I1 := 115, I2 := 0,
                     I3 := setLow 0 (firstByte "A".toList) },
            addr := scanAddress "0x00beEF".toList ((charAt "0x00beEF".toList 6).getD 0)
              { D1 := 0, D2 := 0 },
            ram := ramWrite (ramWrite (fun j => j + 1) 0x1234 64123)
              (wordIndex "0x00beEF".toList { D1 := 0, D2 := 0 }) 0 }
      else Outcome.undefined) ∧
    (6 ≤ "0x00beEF".toList.length ∧ "0x00beEF".toList.length ≤ 13 ∧
      wordIndex "0x00beEF".toList { D1 := 0, D2 := 0 } < 524288) :=
  ⟨by decide, by decide,
    (invocation_store_writes_zero "softcpu".toList "s".toList "0x00beEF".toList "A".toList
      (fun j => j + 1) (by decide) (by decide)).2.2.1,
    by decide⟩

/-- C16: from address registers whose D2 is zero, Load and Store with a
literal of `0x` and 4 to 6 hex digits access the word numbered by the
literal when its numeric value is below 0x80000 and index outside the
524288-word mapping otherwise. Every 4-digit literal is in range; a literal
of value 0x80000 or more (5 or 6 digits) is not, `0x80000` being the first. -/
theorem literal_in_range_iff_below_0x80000 (s : Machine) (ds : List Char)
    (h4 : 4 ≤ ds.length) (h6 : ds.length ≤ 6) (hx : ∀ x ∈ ds, isxdigit x = true)
    (hD2 : s.addr.D2 = 0) :
    load_to_reg ['A'] ('0' :: 'x' :: ds) s =
      (if hexValue ds < 0x80000 then
        Outcome.ok
          { gen := { s.gen with I2 := setLow s.gen.I2 65, A := s.ram (hexValue ds) },
            addr := scanAddress ('0' :: 'x' :: ds) ((charAt ('0' :: 'x' :: ds) 6).getD 0) s.addr,
            ram := s.ram }
      else Outcome.undefined) ∧
    load_to_reg ['B'] ('0' :: 'x' :: ds) s =
      (if hexValue ds < 0x80000 then
        Outcome.ok
          { gen := { s.gen with I2 := setLow s.gen.I2 66, B := s.ram (hexValue ds) },
            addr := scanAddress ('0' :: 'x' :: ds) ((charAt ('0' :: 'x' :: ds) 6).getD 0) s.addr,
            ram := s.ram }
      else Outcome.undefined) ∧
    store_from_reg ('0' :: 'x' :: ds) ['A'] s =
      (if hexValue ds < 0x80000 then
        Outcome.ok
          { gen := { s.gen with I3 := setLow s.gen.I3 65 },
            addr := scanAddress ('0' :: 'x' :: ds) ((charAt ('0' :: 'x' :: ds) 6).getD 0) s.addr,
            ram := ramWrite s.ram (hexValue ds) s.gen.A }
      else Outcome.undefined) ∧
    store_from_reg ('0' :: 'x' :: ds) ['B'] s =
      (if hexValue ds < 0x80000 then
        Outcome.ok
          { gen := { s.gen with I3 := setLow s.gen.I3 66 },
            addr := scanAddress ('0' :: 'x' :: ds) ((charAt ('0' :: 'x' :: ds) 6).getD 0) s.addr,
            ram := ramWrite s.ram (hexValue ds) s.gen.B }
      else Outcome.undefined) ∧
    (ds.length = 4 → hexValue ds < 0x80000) ∧
    hexValue "80000".toList = 0x80000 ∧ hexValue "07ffff".toList < 0x80000 := by
  have hlow : low s.addr.D2 = 0 := by rw [hD2]; rfl
  have hidx := wordIndex_literal ds s.addr h4 h6 hx hlow
  have hlen6 : 6 ≤ ('0' :: 'x' :: ds).length := by simp only [List.length_cons]; omega
  have hlen13 : ('0' :: 'x' :: ds).length ≤ 13 := by simp only [List.length_cons]; omega
  have hw : ram_words = 0x80000 := by decide
  have hlA := load_to_reg_A_cases ['A'] ('0' :: 'x' :: ds) s rfl hlen6 hlen13
  have hlB := load_to_reg_B_cases ['B'] ('0' :: 'x' :: ds) s rfl hlen6 hlen13
  have hsA := store_from_reg_A_cases ('0' :: 'x' :: ds) ['A'] s rfl
  have hsB := store_from_reg_B_cases ('0' :: 'x' :: ds) ['B'] s rfl
  rw [hidx, hw] at hlA hlB hsA hsB
  refine ⟨hlA, hlB, ?_, ?_, ?_, by decide, by decide⟩
  · rw [hsA]
    by_cases hin : hexValue ds < 0x80000
    · rw [if_pos ⟨hlen6, hlen13, hin⟩, if_pos hin]
    · rw [if_neg (fun hc => hin hc.2.2), if_neg hin]
  · rw [hsB]
    by_cases hin : hexValue ds < 0x80000
    · rw [if_pos ⟨hlen6, hlen13, hin⟩, if_pos hin]
    · rw [if_neg (fun hc => hin hc.2.2), if_neg hin]
  · intro hl
    have := hexValue_lt ds hx
    rw [hl] at this
    norm_num at this
    omega

theorem literal_in_range_iff_below_0x80000_witness :
    4 ≤ "80000".toList.length ∧ "80000".toList.length ≤ 6 ∧
    (∀ x ∈ "80000".toList, isxdigit x = true) ∧ (boot (fun j => j + 1)).addr.D2 = 0 ∧
    store_from_reg ('0' :: 'x' :: "80000".toList) ['A'] (boot (fun j => j + 1)) =
      (if hexValue "80000".toList < 0x80000 then
        Outcome.ok
          { gen := { (boot (fun j => j + 1)).gen with
                       I3 := setLow (boot (fun j => j + 1)).gen.I3 65 },
            addr := scanAddress ('0' :: 'x' :: "80000".toList)
              ((charAt ('0' :: 'x' :: "80000".toList) 6).getD 0) (boot (fun j => j + 1)).addr,
            ram := ramWrite (boot (fun j => j + 1)).ram (hexValue "80000".toList)
              (boot (fun j => j + 1)).gen.A }
      else Outcome.undefined) ∧
    ¬ hexValue "80000".toList < 0x80000 :=
  ⟨by decide, by decide, by decide, rfl,
    (literal_in_range_iff_below_0x80000 (boot (fun j => j + 1)) "80000".toList
      (by decide) (by decide) (by decide) rfl).2.2.1,
    by decide⟩

/-- C18: a literal of `0x` and exactly 4 hex digits does not clear D2. For
every state, Load and Store with such a literal access the word whose index
is high_field | (prior D2.low), and D2 is left as it was; after Load has
resolved `0x000056` from any state, `0x1234` resolves to 0x1234 | 0x56 =
0x1276, not 0x1234. -/
theorem four_digit_literal_keeps_D2 (s : Machine) (c1 c2 c3 c4 : Char)
    (hx : ∀ x ∈ [c1, c2, c3, c4], isxdigit x = true) :
    wordIndex ['0', 'x', c1, c2, c3, c4] s.addr = hexValue [c1, c2, c3, c4] ||| low s.addr.D2 ∧
    load_to_reg ['A'] ['0', 'x', c1, c2, c3, c4] s =
      Outcome.ok
        { gen := { s.gen with I2 := setLow s.gen.I2 65,
                              A := s.ram (hexValue [c1, c2, c3, c4] ||| low s.addr.D2) },
          addr := { D1 := hexValue [c1, c2, c3, c4], D2 := s.addr.D2 },
          ram := s.ram } ∧
    load_to_reg ['B'] ['0', 'x', c1, c2, c3, c4] s =
      Outcome.ok
        { gen := { s.gen with I2 := setLow s.gen.I2 66,
                              B := s.ram (hexValue [c1, c2, c3, c4] ||| low s.addr.D2) },
          addr := { D1 := hexValue [c1, c2, c3, c4], D2 := s.addr.D2 },
          ram := s.ram } ∧
    store_from_reg ['0', 'x', c1, c2, c3, c4] ['A'] s =
      Outcome.ok
        { gen := { s.gen with I3 := setLow s.gen.I3 65 },
          addr := { D1 := hexValue [c1, c2, c3, c4], D2 := s.addr.D2 },
          ram := ramWrite s.ram (hexValue [c1, c2, c3, c4] ||| low s.addr.D2) s.gen.A } ∧
    store_from_reg ['0', 'x', c1, c2, c3, c4] ['B'] s =
      Outcome.ok
        { gen := { s.gen with I3 := setLow s.gen.I3 66 },
          addr := { D1 := hexValue [c1, c2, c3, c4], D2 := s.addr.D2 },
          ram := ramWrite s.ram (hexValue [c1, c2, c3, c4] ||| low s.addr.D2) s.gen.B } ∧
    (∃ t, load_to_reg ['A'] "0x000056".toList s = Outcome.ok t ∧
      wordIndex "0x1234".toList t.addr = 0x1234 ||| 0x56 ∧
      wordIndex "0x1234".toList t.addr = 0x1276 ∧
      wordIndex "0x1234".toList t.addr ≠ 0x1234) := by
  have hidx := wordIndex_four_or c1 c2 c3 c4 s.addr hx
  have hsc := scanAddress_four c1 c2 c3 c4 s.addr hx
  have hin : wordIndex ['0', 'x', c1, c2, c3, c4] s.addr < ram_words := by
    rw [hidx]
    have h1 : hexValue [c1, c2, c3, c4] < 2 ^ 16 := by
      have := hexValue_lt [c1, c2, c3, c4] hx
      simp only [List.length_cons, List.length_nil] at this
      norm_num at this ⊢
      exact this
    have h2 : low s.addr.D2 < 2 ^ 16 := by
      have : low s.addr.D2 < 256 := Nat.mod_lt _ (by decide)
      have h256 : (256 : Nat) ≤ 2 ^ 16 := by norm_num
      omega
    have h3 := Nat.or_lt_two_pow h1 h2
    have h4 : (2 : Nat) ^ 16 ≤ ram_words := by decide
    omega
  have hlen6 : 6 ≤ (['0', 'x', c1, c2, c3, c4] : List Char).length := by simp
  have hlen13 : (['0', 'x', c1, c2, c3, c4] : List Char).length ≤ 13 := by simp
  have hlA := load_to_reg_A ['A'] ['0', 'x', c1, c2, c3, c4] s rfl hlen6 hlen13 hin
  have hlB := load_to_reg_B ['B'] ['0', 'x', c1, c2, c3, c4] s rfl hlen6 hlen13 hin
  have hsA := store_from_reg_A ['0', 'x', c1, c2, c3, c4] ['A'] s rfl hlen6 hlen13 hin
  have hsB := store_from_reg_B ['0', 'x', c1, c2, c3, c4] ['B'] s rfl hlen6 hlen13 hin
  rw [hsc, hidx] at hlA hlB hsA hsB
  refine ⟨hidx, hlA, hlB, hsA, hsB, ?_⟩
  have hx6 : ∀ x ∈ ['0', '0', '0', '0', '5', '6'], isxdigit x = true := by decide
  have hi6 := wordIndex_six '0' '0' '0' '0' '5' '6' s.addr hx6
  have hv6 : hexValue ['0', '0', '0', '0', '5', '6'] = 0x56 := by decide
  have hin6 : wordIndex ['0', 'x', '0', '0', '0', '0', '5', '6'] s.addr < ram_words := by
    rw [hi6, hv6]
    decide
  have hl6 := load_to_reg_A ['A'] ['0', 'x', '0', '0', '0', '0', '5', '6'] s rfl
    (by decide) (by decide) hin6
  rw [scanAddress_long '0' '0' '0' '0' '5' ['6'] s.addr (by decide) (by decide) (by decide)] at hl6
  have hx4 : ∀ x ∈ ['1', '2', '3', '4'], isxdigit x = true := by decide
  have hv4 : hexValue ['1', '2', '3', '4'] = 0x1234 := by decide
  have hv2 : hexValue ['5', '6'] = 0x56 := by decide
  have hres : wordIndex ['0', 'x', '1', '2', '3', '4']
      { D1 := hexValue ['0', '0', '0', '0'], D2 := setLow s.addr.D2 (hexValue ['5', '6']) } =
      0x1234 ||| 0x56 := by
    rw [wordIndex_four_or '1' '2' '3' '4' _ hx4, hv4, low_setLow, hv2]
  have h76 : (0x1234 : Nat) ||| 0x56 = 0x1276 := by decide
  have hne : (0x1234 : Nat) ||| 0x56 ≠ 0x1234 := by decide
  exact ⟨_, hl6, hres, hres.trans h76, fun h => hne (hres.symm.trans h)⟩

theorem four_digit_literal_keeps_D2_witness :
    (∀ x ∈ ['1', '2', '3', '4'], isxdigit x = true) ∧
    wordIndex ['0', 'x', '1', '2', '3', '4'] { D1 := 0, D2 := 0x56 } =
      hexValue ['1', '2', '3', '4'] ||| low 0x56 ∧
    hexValue ['1', '2', '3', '4'] ||| low 0x56 = 0x1276 :=
  ⟨by decide,
    (four_digit_literal_keeps_D2
      { gen := { A := 0, B := 0, I1 := 0, I2 := 0, I3 := 0 },
        addr := { D1 := 0, D2 := 0x56 }, ram := fun j => j }
      '1' '2' '3' '4' (by decide)).1,
    by decide⟩

end SoftCpu
